import Mathlib

/-!
Shallow embedding of the live-imprinting learner of `WrathRegulatorGUI.py`
(the `ai imprinter 2.py` section): the weighted rule graph with its softmax
forward pass, the divergence tracker, the ETHOS governor and the online
`imprint` update, together with proofs of the specified properties.

Numbers are modelled over an arbitrary linear ordered field `K`; concrete
evaluations instantiate `K := ℚ`, and statements involving the real
exponential instantiate `K := ℝ`.  The exponential itself is passed as a
function argument `expF` so that the development stays executable; the two
facts about `Real.exp` the theorems need (positivity and `exp 0 = 1`) are
taken as hypotheses and discharged by `Real.exp_pos` and `Real.exp_zero`.

Python dicts are modelled as association lists with the `defaultdict`
convention that an absent key reads as `0`; `dict` assignment keeps the
position of an existing key and appends a new one.  The module level
`random` generator is modelled as an explicit deterministic stream of
draws threaded through the computation.
-/

namespace Ethos

variable {K : Type} [LinearOrderedField K]

/-- Association list lookup (Python `d[k]` / `k in d`), keyed by strings. -/
def alookup {β : Type} (m : List (String × β)) (k : String) : Option β :=
  match m with
  | [] => none
  | kv :: rest => if kv.1 = k then some kv.2 else alookup rest k

/-- `defaultdict(float)` read: an absent key has value `0`. -/
def lookupD (m : List (String × K)) (k : String) : K :=
  (alookup m k).getD 0

/-- Whether a key is present (Python `k in d`). -/
def hasKey {β : Type} (m : List (String × β)) (k : String) : Bool :=
  match m with
  | [] => false
  | kv :: rest => kv.1 = k || hasKey rest k

/-- `dict` assignment: replace the value of an existing key in place,
append a fresh key at the end. -/
def setD (m : List (String × K)) (k : String) (v : K) : List (String × K) :=
  if hasKey m k then m.map (fun kv => if kv.1 = k then (k, v) else kv)
  else m ++ [(k, v)]

/-- The entry a `defaultdict` read inserts for an absent key (value `0`). -/
def insertIfAbsent (m : List (String × K)) (k : String) : List (String × K) :=
  if hasKey m k then m else m ++ [(k, 0)]

/-- `collections.deque(maxlen := cap)` append: push right, evict from the
left once over capacity. -/
def pushB (l : List K) (x : K) (cap : ℕ) : List K :=
  let l' := l ++ [x]
  l'.drop (l'.length - cap)

/-- `sigmoid(x) = 1 / (1 + exp(-x))`, with the exponential passed in. -/
def sigmoid (expF : K → K) (x : K) : K :=
  1 / (1 + expF (-x))

/-- `soft_threshold`: L1 shrinkage of `x` toward `0` by `lam`. -/
def soft_threshold (x lam : K) : K :=
  if lam < x then x - lam
  else if x < -lam then x + lam
  else 0

/-- Population variance of a sequence, `sum((x-m)^2)/len`. -/
def variance (seq : List K) : K :=
  let m := seq.sum / (seq.length : K)
  (seq.map (fun x => (x - m) * (x - m))).sum / (seq.length : K)

/-- `clip01`: clamp into `[0, 1]`. -/
def clip01 (x : K) : K :=
  if x < 0 then 0
  else if 1 < x then 1
  else x

/-- `RuleNode`: bias, sparse feature weights, sparse action weights and the
transient last activation (`0.0` at construction). -/
structure RuleNode (K : Type) where
  bias : K
  w_in : List (String × K)
  w_out : List (String × K)
  last_act : K
deriving DecidableEq, Repr

instance : Inhabited (RuleNode K) := ⟨⟨0, [], [], 0⟩⟩

/-- `RuleNode.activate`: sum the bias and the weighted present features
(each `w_in[f]` read inserts an absent feature at weight `0`), squash with
the sigmoid and record it in `last_act`.  Returns the activation and the
updated node. -/
def RuleNode.activate (expF : K → K) (r : RuleNode K) (features : List (String × K)) :
    K × RuleNode K :=
  let sm := features.foldl
    (fun acc fv => (acc.1 + lookupD acc.2 fv.1 * fv.2, insertIfAbsent acc.2 fv.1))
    (r.bias, r.w_in)
  let a := sigmoid expF sm.1
  (a, { r with w_in := sm.2, last_act := a })

/-- `LogicGraph`: named rules (a dict, so rule names are unique in any state
the Python code can build) and the ordered action list. -/
structure LogicGraph (K : Type) where
  rules : List (String × RuleNode K)
  actions : List String
deriving DecidableEq, Repr

/-- The per-rule state after `forward` has activated every rule. -/
def forwardGraph (expF : K → K) (g : LogicGraph K) (features : List (String × K)) :
    LogicGraph K :=
  { rules := g.rules.map (fun nr => (nr.1, (RuleNode.activate expF nr.2 features).2)),
    actions := g.actions }

/-- Result of `LogicGraph.forward`: rule activations, action logits, the
softmax policy and the updated graph. -/
structure ForwardOut (K : Type) where
  rule_acts : List (String × K)
  logits : List (String × K)
  policy : List (String × K)
  graph : LogicGraph K
deriving DecidableEq, Repr

/-- The rule activations `forward` reports, keyed like the rules dict. -/
def ruleActsOf (expF : K → K) (g : LogicGraph K) (features : List (String × K)) :
    List (String × K) :=
  g.rules.map (fun nr => (nr.1, (RuleNode.activate expF nr.2 features).1))

/-- The logit `forward` accumulates for action `a`:
`logits[a] += w_out[a] * r.last_act` over all (just activated) rules. -/
def forwardLogit (expF : K → K) (g : LogicGraph K) (features : List (String × K))
    (a : String) : K :=
  ((forwardGraph expF g features).rules.map
    (fun nr => lookupD nr.2.w_out a * nr.2.last_act)).sum

/-- The logits dict: one entry per distinct action. -/
def forwardLogits (expF : K → K) (g : LogicGraph K) (features : List (String × K)) :
    List (String × K) :=
  g.actions.dedup.map (fun a => (a, forwardLogit expF g features a))

/-- `max(logits.values())` (the value is irrelevant when there are no
actions: `forward` fails there). -/
def forwardMx (expF : K → K) (g : LogicGraph K) (features : List (String × K)) : K :=
  match g.actions.dedup with
  | [] => 0
  | k0 :: krest =>
    (krest.map (forwardLogit expF g features)).foldl max (forwardLogit expF g features k0)

/-- `exp(logits[a] - mx)`. -/
def forwardExp (expF : K → K) (g : LogicGraph K) (features : List (String × K))
    (a : String) : K :=
  expF (forwardLogit expF g features a - forwardMx expF g features)

/-- `Z = sum(exps.values()) + 1e-9`. -/
def forwardZ (expF : K → K) (g : LogicGraph K) (features : List (String × K)) : K :=
  (g.actions.dedup.map (forwardExp expF g features)).sum + 1 / 1000000000

/-- The softmax policy dict `{a: exps[a] / Z}`. -/
def forwardPolicy (expF : K → K) (g : LogicGraph K) (features : List (String × K)) :
    List (String × K) :=
  g.actions.dedup.map (fun a => (a, forwardExp expF g features a / forwardZ expF g features))

/-- `LogicGraph.forward`: activate all rules, aggregate logits per action
(a `w_out` key outside the action set would raise a `KeyError`, modelled by
`none`, as would `max` over an empty logit dict when there are no actions),
then the numerically stabilised softmax with the `1e-9` floor on the
partition sum.  Action duplicates collapse exactly as dict keys do. -/
def LogicGraph.forward (expF : K → K) (g : LogicGraph K) (features : List (String × K)) :
    Option (ForwardOut K) :=
  if (forwardGraph expF g features).rules.all
      (fun nr => nr.2.w_out.all (fun aw => g.actions.contains aw.1)) then
    match g.actions.dedup with
    | [] => none
    | _ :: _ =>
      some ⟨ruleActsOf expF g features, forwardLogits expF g features,
            forwardPolicy expF g features, forwardGraph expF g features⟩
  else none

/-- `snapshot_weights`: deep copy of every bias, input and output weight. -/
structure Snapshot (K : Type) where
  bias : List (String × K)
  w_in : List (String × List (String × K))
  w_out : List (String × List (String × K))
deriving DecidableEq, Repr

/-- Deep copy of the graph's weights. -/
def snapshot_weights (g : LogicGraph K) : Snapshot K :=
  ⟨g.rules.map (fun nr => (nr.1, nr.2.bias)),
   g.rules.map (fun nr => (nr.1, nr.2.w_in)),
   g.rules.map (fun nr => (nr.1, nr.2.w_out))⟩

/-- `l1_norm_snapshot`: sum of absolute values of all stored weights. -/
def l1_norm_snapshot (s : Snapshot K) : K :=
  (s.bias.map (fun nb => |nb.2|)).sum
  + (s.w_in.map (fun nm => (nm.2.map (fun kw => |kw.2|)).sum)).sum
  + (s.w_out.map (fun nm => (nm.2.map (fun kw => |kw.2|)).sum)).sum

/-- Per-rule map part of `l1_diff_snap_vs_graph`: the Python code sums
`|current - stored|` over `set(stored keys + current keys)`, modelled as a
`Finset` sum over the union of the key lists. -/
def l1diffMaps (fmap m : List (String × K)) : K :=
  ((fmap.map Prod.fst ++ m.map Prod.fst).toFinset).sum
    (fun k => |lookupD m k - lookupD fmap k|)

/-- `l1_diff_snap_vs_graph`: total L1 distance between the stored snapshot
and the graph's current weights (a rule missing from the graph contributes
the full stored mass; for biases a missing rule reads as `0`). -/
def l1_diff_snap_vs_graph (snap : Snapshot K) (g : LogicGraph K) : K :=
  (snap.bias.map
    (fun nb => |((alookup g.rules nb.1).map RuleNode.bias).getD 0 - nb.2|)).sum
  + (snap.w_in.map (fun nm =>
      match alookup g.rules nm.1 with
      | none => (nm.2.map (fun kw => |kw.2|)).sum
      | some r => l1diffMaps nm.2 r.w_in)).sum
  + (snap.w_out.map (fun nm =>
      match alookup g.rules nm.1 with
      | none => (nm.2.map (fun kw => |kw.2|)).sum
      | some r => l1diffMaps nm.2 r.w_out)).sum

/-- `EthosGovernor`: thresholds for the runtime gating decision. -/
structure EthosGovernor (K : Type) where
  warn_thresh : K
  limit_thresh : K
  quarantine_thresh : K
  tau_volatility : K
deriving DecidableEq, Repr

/-- The constructor defaults `warn 0.50, limit 0.70, quarantine 0.85,
tau 0.02`. -/
def defaultGovernor (K : Type) [LinearOrderedField K] : EthosGovernor K :=
  ⟨1/2, 7/10, 17/20, 1/50⟩

/-- `EthosGovernor.decide`: map `(divergence, volatility)` to
`(mode, lr_scale, allow_mutation)`. -/
def EthosGovernor.decide (gov : EthosGovernor K) (div_score volatility : K) :
    String × K × Bool :=
  if gov.quarantine_thresh ≤ div_score then ("quarantine", 0, false)
  else if gov.limit_thresh ≤ div_score then ("limit", 0, false)
  else if gov.warn_thresh ≤ div_score then
    ("warning", 1/2, if volatility < gov.tau_volatility then true else false)
  else ("allow", 1, if volatility < gov.tau_volatility then true else false)

/-- `LiveImprinter` configuration (the constructor arguments). -/
structure LiveImprinter (K : Type) where
  base_lr : K
  decay : K
  l1 : K
  td : K
  mutate_p : K
  allow_mutation : Bool
  governor : Option (EthosGovernor K)
  alpha_w : K
  alpha_pi : K
  alpha_m : K
  mut_window : ℕ
deriving DecidableEq, Repr

/-- The constructor defaults: `lr=0.15, decay=0.002, l1=0.0005, td=0.4,
mutate_p=0.02, allow_mutation=True, governor=None, div_alpha=(0.5,0.4,0.1),
mut_window=50`. -/
def defaultImprinter (K : Type) [LinearOrderedField K] : LiveImprinter K :=
  ⟨3/20, 1/500, 1/2000, 2/5, 1/50, true, none, 1/2, 2/5, 1/10, 50⟩

/-- Mutable per-run state of a `LiveImprinter`.  The Python attributes
`w0_snap` and `w0_l1` are always assigned together on the first
`divergence_score` call, so they are modelled as one optional pair. -/
structure ImprinterState (K : Type) where
  stability_window : List K
  mutate_window : List K
  w0 : Option (Snapshot K × K)
  prev_policy : Option (List (String × K))
  prev_snap : Option (Snapshot K)
deriving DecidableEq, Repr

/-- State of a freshly constructed `LiveImprinter`. -/
def initState (K : Type) [LinearOrderedField K] : ImprinterState K :=
  ⟨[], [], none, none, none⟩

/-- The seeded `random` generator, modelled as explicit streams of draws:
`reals` feeds `random.random()`/`random.uniform`, `nats` feeds the index
that `random.choice` picks.  Exhausted streams read as `0`. -/
structure Rng (K : Type) where
  reals : List K
  nats : List ℕ
deriving DecidableEq, Repr

/-- Draw from `random.random()`. -/
def nextU (r : Rng K) : K × Rng K :=
  (r.reals.headD 0, ⟨r.reals.tail, r.nats⟩)

/-- Draw the index for a `random.choice` over `n` items. -/
def choiceIdx (r : Rng K) (n : ℕ) : ℕ × Rng K :=
  (r.nats.headD 0 % n, ⟨r.reals, r.nats.tail⟩)

/-- `random.uniform(a, b)`. -/
def uniformDraw (r : Rng K) (a b : K) : K × Rng K :=
  let p := nextU r
  (a + (b - a) * p.1, p.2)

/-- `LiveImprinter.mutate`: pick one rule at random, nudge one of its
output edges by `U(-0.2, 0.2)`; then either flip the sign of one input
weight or nudge it by `U(-0.1, 0.1)`, or, if the rule has no input weights,
create a small new edge to one of `fA`, `fB`, `fC`.  `random.choice` on an
empty rule dict raises, modelled by `none`. -/
def mutate (g : LogicGraph K) (rng : Rng K) : Option (LogicGraph K × Rng K) :=
  if g.rules.isEmpty then none
  else
    let p1 := choiceIdx rng g.rules.length
    let nr := g.rules.getD p1.1 ("", default)
    let r := nr.2
    let step1 : RuleNode K × Rng K :=
      if g.actions.isEmpty then (r, p1.2)
      else
        let pa := choiceIdx p1.2 g.actions.length
        let a := g.actions.getD pa.1 ""
        let pu := uniformDraw pa.2 (-(1/5)) (1/5)
        ({ r with w_out := setD r.w_out a (lookupD r.w_out a + pu.1) }, pu.2)
    let r1 := step1.1
    let step2 : RuleNode K × Rng K :=
      if r1.w_in.isEmpty then
        let pf := choiceIdx step1.2 3
        let newf := (["fA", "fB", "fC"] : List String).getD pf.1 ""
        let pu := uniformDraw pf.2 (-(1/20)) (1/20)
        ({ r1 with w_in := setD r1.w_in newf (lookupD r1.w_in newf + pu.1) }, pu.2)
      else
        let pf := choiceIdx step1.2 r1.w_in.length
        let f := (r1.w_in.getD pf.1 ("", 0)).1
        let pc := nextU pf.2
        if pc.1 < 1/2 then
          ({ r1 with w_in := setD r1.w_in f (lookupD r1.w_in f * (-1)) }, pc.2)
        else
          let pu := uniformDraw pc.2 (-(1/10)) (1/10)
          ({ r1 with w_in := setD r1.w_in f (lookupD r1.w_in f + pu.1) }, pu.2)
    some ({ g with rules := g.rules.set p1.1 (nr.1, step2.1) }, step2.2)

/-- Result tuple of `LiveImprinter.divergence_score`: the state after the
lazy `w0` capture and the mutation-window append, the clipped score and its
three components. -/
structure DivOut (K : Type) where
  st : ImprinterState K
  div : K
  dw : K
  dpi : K
  dm : K
deriving DecidableEq, Repr

/-- `LiveImprinter.divergence_score`: lazily capture `w0` (L1 norm floored
at `1e-9`), normalised weight drift `dw` clamped at `1`, total-variation
policy shift `dpi` (0 without a previous policy) clamped at `1`, append the
mutation flag to the window and take the recent mutation rate `dm`, then
the clipped weighted sum. -/
def divergence_score (cfg : LiveImprinter K) (st : ImprinterState K) (g : LogicGraph K)
    (current_policy : List (String × K)) (mutated_flag : Bool) : DivOut K :=
  let w0p := match st.w0 with
    | none => (snapshot_weights g, max (l1_norm_snapshot (snapshot_weights g)) (1/1000000000))
    | some p => p
  let dw0 := l1_diff_snap_vs_graph w0p.1 g / w0p.2
  let dw := if 1 < dw0 then 1 else dw0
  let dpi : K := match st.prev_policy with
    | none => 0
    | some q =>
      let d := ((current_policy.map (fun ap => |ap.2 - lookupD q ap.1|)).sum) * (1/2)
      if 1 < d then 1 else d
  let mw := pushB st.mutate_window (if mutated_flag then 1 else 0) cfg.mut_window
  let dm := mw.sum / ((max 1 mw.length : ℕ) : K)
  let div := clip01 (cfg.alpha_w * dw + cfg.alpha_pi * dpi + cfg.alpha_m * dm)
  ⟨{ st with w0 := some w0p, mutate_window := mw }, div, dw, dpi, dm⟩

/-- One output-weight sweep for a rule: `for a in graph.actions`, advantage
times activation gradient, reward/TD blend, decay and L1 shrinkage. -/
def updateRuleOut (cfg : LiveImprinter K) (lr_eff reward td_error : K)
    (policy : List (String × K)) (chosen : String) (actions : List String)
    (r : RuleNode K) : RuleNode K :=
  actions.foldl (fun r a =>
    let adv := (if a = chosen then (1 : K) else 0) - lookupD policy a
    let grad := adv * r.last_act
    let delta := lr_eff * (reward * grad + td_error * grad)
    let w := soft_threshold (lookupD r.w_out a * (1 - cfg.decay) + delta) cfg.l1
    { r with w_out := setD r.w_out a w }) r

/-- One input-weight sweep for a rule: `for f, x in features.items()`. -/
def updateRuleIn (cfg : LiveImprinter K) (lr_eff reward td_error : K)
    (features : List (String × K)) (r : RuleNode K) : RuleNode K :=
  features.foldl (fun r fv =>
    let corr := (r.last_act - 1/2) * fv.2
    let delta := lr_eff * (1/2) * (reward * corr + td_error * corr)
    let w := soft_threshold (lookupD r.w_in fv.1 * (1 - cfg.decay) + delta) cfg.l1
    { r with w_in := setD r.w_in fv.1 w }) r

/-- The bias nudge. -/
def updateRuleBias (cfg : LiveImprinter K) (lr_eff reward : K) (r : RuleNode K) :
    RuleNode K :=
  let b := soft_threshold
    (r.bias * (1 - cfg.decay) + lr_eff * (1/10) * reward * (r.last_act - 1/2)) cfg.l1
  { r with bias := b }

/-- The three update loops of `imprint` (output weights, then input
weights, then biases, each over every rule). -/
def applyUpdates (cfg : LiveImprinter K) (g : LogicGraph K)
    (features policy : List (String × K)) (chosen : String)
    (lr_eff reward td_error : K) : LogicGraph K :=
  let rules1 := g.rules.map
    (fun nr => (nr.1, updateRuleOut cfg lr_eff reward td_error policy chosen g.actions nr.2))
  let rules2 := rules1.map
    (fun nr => (nr.1, updateRuleIn cfg lr_eff reward td_error features nr.2))
  let rules3 := rules2.map (fun nr => (nr.1, updateRuleBias cfg lr_eff reward nr.2))
  { g with rules := rules3 }

/-- The mutation gate at the end of the update phase: mutation fires only
if the run config allows it, the governor allows it, the `random.random()`
draw (consumed exactly then) is below `mutate_p`, and the volatility
exceeds the hard-coded `0.02` trigger. -/
def mutatePhase (cfg : LiveImprinter K) (g1 : LogicGraph K) (allowNow : Bool)
    (volatility : K) (rng : Rng K) : Option (LogicGraph K × Bool × Rng K) :=
  if cfg.allow_mutation && allowNow then
    if (nextU rng).1 < cfg.mutate_p then
      if 1/50 < volatility then
        match mutate g1 (nextU rng).2 with
        | none => none
        | some (g2, rng2) => some (g2, true, rng2)
      else some (g1, false, (nextU rng).2)
    else some (g1, false, (nextU rng).2)
  else some (g1, false, rng)

/-- The guarded update-and-mutate phase of `imprint`: skipped entirely in
quarantine; otherwise the output-weight loop reads `policy[a]` for every
action (a missing key raises, modelled by `none`, unless there are no rules
so the loop body never runs), the updates are applied and the mutation gate
runs. -/
def updatePhase (cfg : LiveImprinter K) (g : LogicGraph K)
    (features policy : List (String × K)) (chosen : String)
    (lr_eff reward td_error : K) (mode : String) (allowNow : Bool)
    (volatility : K) (rng : Rng K) : Option (LogicGraph K × Bool × Rng K) :=
  if mode = "quarantine" then some (g, false, rng)
  else if g.rules.isEmpty || g.actions.all (fun a => (alookup policy a).isSome) then
    mutatePhase cfg (applyUpdates cfg g features policy chosen lr_eff reward td_error)
      allowNow volatility rng
  else none

/-- The per-step diagnostic record `imprint` returns. -/
structure StepRecord (K : Type) where
  mode : String
  lr_eff : K
  volatility : K
  mutated : Bool
  div_score : K
  Dw : K
  Dpi : K
  Dm : K
  dW_step : K
deriving DecidableEq, Repr

/-- Result of one `imprint` call: the new imprinter state, the updated
graph, the diagnostic record and the advanced random stream. -/
structure StepOut (K : Type) where
  st : ImprinterState K
  graph : LogicGraph K
  record : StepRecord K
  rng : Rng K
deriving DecidableEq, Repr

/-- Appending `policy[chosen]` to the stability window (deque maxlen 25). -/
def stabilityPush (st : ImprinterState K) (policy : List (String × K)) (chosen : String) :
    ImprinterState K :=
  { st with stability_window := pushB st.stability_window (lookupD policy chosen) 25 }

/-- The volatility metric: variance of the stability window once it has at
least two samples, else `0`. -/
def volOf (st : ImprinterState K) : K :=
  if 2 ≤ st.stability_window.length then variance st.stability_window else 0

/-- Volatility as `imprint` sees it, after the `policy[chosen]` push. -/
def preVol (st : ImprinterState K) (policy : List (String × K)) (chosen : String) : K :=
  volOf (stabilityPush st policy chosen)

/-- The pre-update divergence score exactly as `imprint` computes it before
consulting the governor (the stability push never feeds `divergence_score`,
which does not read that window, but it keeps the state in step). -/
def preDivScore (cfg : LiveImprinter K) (st : ImprinterState K) (g : LogicGraph K)
    (policy : List (String × K)) (chosen : String) : K :=
  (divergence_score cfg (stabilityPush st policy chosen) g policy false).div

/-- The governor consultation: `("allow", 1.0, True)` when no governor is
installed. -/
def govDecide (cfg : LiveImprinter K) (div_score volatility : K) : String × K × Bool :=
  match cfg.governor with
  | none => ("allow", 1, true)
  | some gov => gov.decide div_score volatility

/-- The `(mode, lr_scale, allow_mutation_now)` triple of one step. -/
def preGov (cfg : LiveImprinter K) (st : ImprinterState K) (g : LogicGraph K)
    (policy : List (String × K)) (chosen : String) : String × K × Bool :=
  govDecide cfg (preDivScore cfg st g policy chosen) (preVol st policy chosen)

/-- The effective learning rate `base_lr * lr_scale` of one step. -/
def preLr (cfg : LiveImprinter K) (st : ImprinterState K) (g : LogicGraph K)
    (policy : List (String × K)) (chosen : String) : K :=
  cfg.base_lr * (preGov cfg st g policy chosen).2.1

/-- The TD error `reward + td * next_value_est - policy.get(chosen, 0.0)`. -/
def preTd (cfg : LiveImprinter K) (policy : List (String × K)) (chosen : String)
    (reward next_value_est : K) : K :=
  reward + cfg.td * next_value_est - lookupD policy chosen

/-- Bookkeeping tail of `imprint` after the update phase: record the
previous policy, measure `dW_step` against the previous snapshot (captured
lazily from the *post-update* graph on the first call), refresh that
snapshot, recompute the divergence with the corrected mutation flag, and
assemble the returned record.  `stA` is the state left by the pre-update
`divergence_score` call. -/
def finishState (stA : ImprinterState K) (g2 : LogicGraph K)
    (policy : List (String × K)) : ImprinterState K :=
  { stA with prev_policy := some policy, prev_snap := some (snapshot_weights g2) }

def stepFinish (cfg : LiveImprinter K) (stA : ImprinterState K) (g2 : LogicGraph K)
    (policy : List (String × K)) (mode : String) (lr_eff volatility : K)
    (mutated : Bool) (rng2 : Rng K) : StepOut K :=
  let dW_step := l1_diff_snap_vs_graph (stA.prev_snap.getD (snapshot_weights g2)) g2
  let d2 := divergence_score cfg (finishState stA g2 policy) g2 policy mutated
  ⟨d2.st, g2, ⟨mode, lr_eff, volatility, mutated, d2.div, d2.dw, d2.dpi, d2.dm, dW_step⟩, rng2⟩

/-- `LiveImprinter.imprint`.  `policy[chosen]` on a missing key raises
before any state is touched (modelled by `none`); then: volatility from the
stability window, pre-update divergence with a provisional `false` mutation
flag, the governor decision, the effective learning rate, the TD error, the
guarded update/mutation phase, and the bookkeeping tail.  `rule_acts` is
accepted and unused, as in the source. -/
def imprint (cfg : LiveImprinter K) (st : ImprinterState K) (g : LogicGraph K)
    (features rule_acts policy : List (String × K)) (chosen : String)
    (reward next_value_est : K) (rng : Rng K) : Option (StepOut K) :=
  if (alookup policy chosen).isSome then
    match updatePhase cfg g features policy chosen (preLr cfg st g policy chosen) reward
        (preTd cfg policy chosen reward next_value_est) (preGov cfg st g policy chosen).1
        (preGov cfg st g policy chosen).2.2 (preVol st policy chosen) rng with
    | none => none
    | some (g2, mutated, rng2) =>
      some (stepFinish cfg
        (divergence_score cfg (stabilityPush st policy chosen) g policy false).st g2 policy
        (preGov cfg st g policy chosen).1 (preLr cfg st g policy chosen)
        (preVol st policy chosen) mutated rng2)
  else none

/-- Per-step inputs the driving harness supplies to `imprint`. -/
structure StepInput (K : Type) where
  features : List (String × K)
  rule_acts : List (String × K)
  policy : List (String × K)
  chosen : String
  reward : K
  next_value_est : K
deriving DecidableEq, Repr

/-- Run a sequence of `imprint` calls, collecting the records; a failing
call stops the run. -/
def runSteps (cfg : LiveImprinter K) :
    ImprinterState K → LogicGraph K → Rng K → List (StepInput K) →
    List (StepRecord K) × ImprinterState K × LogicGraph K × Rng K
  | st, g, rng, [] => ([], st, g, rng)
  | st, g, rng, i :: rest =>
    match imprint cfg st g i.features i.rule_acts i.policy i.chosen i.reward
        i.next_value_est rng with
    | none => ([], st, g, rng)
    | some out =>
      let t := runSteps cfg out.st out.graph out.rng rest
      (out.record :: t.1, t.2)

/-- States an imprinter driving one experiment can reach: the freshly
constructed state on any well-formed graph (rule names are dict keys, hence
distinct), advanced by successful `imprint` calls with arbitrary inputs and
by interleaved `forward` passes. -/
inductive Reach (cfg : LiveImprinter K) : ImprinterState K → LogicGraph K → Prop
  | init (g : LogicGraph K) (hnd : (g.rules.map Prod.fst).Nodup) :
      Reach cfg (initState K) g
  | imprint_step {st g features rule_acts policy chosen reward nv rng out}
      (h : Reach cfg st g)
      (hs : imprint cfg st g features rule_acts policy chosen reward nv rng = some out) :
      Reach cfg out.st out.graph
  | forward_step {st g expF features out}
      (h : Reach cfg st g)
      (hf : LogicGraph.forward expF g features = some out) :
      Reach cfg st out.graph

/-! ### The activation fold of `RuleNode.activate` -/

/-- The fold step `activate` runs over the feature items. -/
def actStep (acc : K × List (String × K)) (fv : String × K) : K × List (String × K) :=
  (acc.1 + lookupD acc.2 fv.1 * fv.2, insertIfAbsent acc.2 fv.1)

/-! ### The single-rule single-action scenario over the reals -/

/-- The scenario graph: one rule with bias 0, no input weights, output
weight 1.0 to the only action "LEFT" (`last_act` starts at 0). -/
def g9 (K : Type) [LinearOrderedField K] : LogicGraph K :=
  ⟨[("r", ⟨0, [], [("LEFT", 1)], 0⟩)], ["LEFT"]⟩

/-- The scenario graph after the forward pass set `last_act` to 1/2. -/
def g9fwd (K : Type) [LinearOrderedField K] : LogicGraph K :=
  ⟨[("r", ⟨0, [], [("LEFT", 1)], 1/2⟩)], ["LEFT"]⟩

/-- Placeholder output used only to name computed `imprint` results. -/
def wDummyOut : StepOut ℚ := ⟨initState ℚ, ⟨[], []⟩, ⟨"", 0, 0, false, 0, 0, 0, 0, 0⟩, ⟨[], []⟩⟩

/-- Default imprinter with the default governor installed. -/
def wCfgGov : LiveImprinter ℚ := { defaultImprinter ℚ with governor := some (defaultGovernor ℚ) }

/-- Stored birth snapshot with L1 norm 1 for the limit-mode witness. -/
def wSnapC2 : Snapshot ℚ := ⟨[("r", 1)], [("r", [])], [("r", [("L", 0)])]⟩

/-- State whose pre-update divergence is exactly 0.7: weight drift 2 over
norm 1 clamps `Dw` to 1 and the policy shift contributes `Dpi = 0.5`. -/
def wStC2 : ImprinterState ℚ := ⟨[], [], some (wSnapC2, 1), some [("L", 1/2), ("R", 1/2)], none⟩

/-- Graph drifted to bias 3 against the stored bias 1. -/
def wGC2 : LogicGraph ℚ := ⟨[("r", ⟨3, [], [("L", 0)], 1/2⟩)], ["L", "R"]⟩

/-- Step policy for the limit-mode witness. -/
def wPolC2 : List (String × ℚ) := [("L", 1), ("R", 0)]

/-- The computed output of the limit-mode witness step. -/
def wOutC2 : StepOut ℚ := (imprint wCfgGov wStC2 wGC2 [] [] wPolC2 "L" 1 0 ⟨[], []⟩).getD wDummyOut

/-- One-rule one-action graph used by several witnesses. -/
def wG7 : LogicGraph ℚ := ⟨[("r", ⟨0, [], [("L", 1)], 1⟩)], ["L"]⟩

/-- A single step input. -/
def wIn7 : StepInput ℚ := ⟨[], [], [("L", 1)], "L", 1, 0⟩

/-- The computed first step on `wG7` with reward 1. -/
def wOutC5 : StepOut ℚ :=
  (imprint (defaultImprinter ℚ) (initState ℚ) wG7 [] [] [("L", 1)] "L" 1 0 ⟨[], []⟩).getD
    wDummyOut

/-- Two-action graph for the mutation-window counterexample. -/
def wG6 : LogicGraph ℚ := ⟨[("r", ⟨0, [], [("L", 0), ("R", 0)], 1⟩)], ["L", "R"]⟩

/-- Random stream making the second step mutate: the first step consumes
`0.5 ≥ mutate_p`, the second consumes `0.01 < mutate_p` and then the
mutation draws. -/
def wRng6 : Rng ℚ := ⟨[1/2, 1/100, 0, 0, 0], [0, 0, 0]⟩

/-- First step of the counterexample run (policy concentrated on "L"). -/
def wOut6a : StepOut ℚ :=
  (imprint (defaultImprinter ℚ) (initState ℚ) wG6 [] [] [("L", 1), ("R", 0)] "L" 0 0
    wRng6).getD wDummyOut

/-- Second step (policy flipped to "R", volatility 1/4 triggers mutation). -/
def wOut6b : StepOut ℚ :=
  (imprint (defaultImprinter ℚ) wOut6a.st wOut6a.graph [] [] [("L", 0), ("R", 1)] "L" 0 0
    wOut6a.rng).getD wDummyOut

/-- Placeholder forward output used only to name computed results. -/
def wDummyFwd : ForwardOut ℚ := ⟨[], [], [], ⟨[], []⟩⟩

/-- The computed forward pass on `wG7` with no features, with the constant
function `1` standing in for the exponential (it is positive and sends `0`
to `1`, which is all the softmax bounds use). -/
def wOutC3 : ForwardOut ℚ :=
  (LogicGraph.forward (fun _ => (1 : ℚ)) wG7 []).getD wDummyFwd

/-- The computed forward pass on `wG7` with one feature, exercising the
zero-weight insertion for an absent feature key. -/
def wOutC10 : ForwardOut ℚ :=
  (LogicGraph.forward (fun _ => (1 : ℚ)) wG7 [("x", 2)]).getD wDummyFwd

/-- Graph whose zero birth snapshot (L1 norm floored at `1e-9`) makes any
later drift clamp `Dw` to 1. -/
def wG1 : LogicGraph ℚ := ⟨[("r", ⟨0, [], [("L", 0)], 1⟩)], ["L", "R"]⟩

/-- First step of the quarantine witness run (drifts the bias to 0.007). -/
def wOut1a : StepOut ℚ :=
  (imprint wCfgGov (initState ℚ) wG1 [] [] [("L", 1), ("R", 0)] "L" 1 0 ⟨[], []⟩).getD
    wDummyOut

/-- Second step: with `Dw = 1` and `Dpi = 1` the pre-update divergence is
0.9, above the default quarantine threshold. -/
def wOut1b : StepOut ℚ :=
  (imprint wCfgGov wOut1a.st wOut1a.graph [] [] [("L", 0), ("R", 1)] "L" 1 0 ⟨[], []⟩).getD
    wDummyOut

/-! ### Basic lemmas about the dict model -/

theorem alookup_eq_none {β : Type} (m : List (String × β)) (k : String) :
    alookup m k = none ↔ k ∉ m.map Prod.fst := by
  induction m with
  | nil => simp [alookup]
  | cons kv rest ih =>
    by_cases h : kv.1 = k <;> simp [alookup, h, ih, Ne.symm]

theorem alookup_isSome {β : Type} (m : List (String × β)) (k : String) :
    (alookup m k).isSome = true ↔ k ∈ m.map Prod.fst := by
  rw [Option.isSome_iff_ne_none, not_iff_comm, ← alookup_eq_none]

theorem alookup_keyed_map {β : Type} (l : List String) (f : String → β) (a : String)
    (hmem : a ∈ l) : alookup (l.map (fun x => (x, f x))) a = some (f a) := by
  induction l with
  | nil => simp at hmem
  | cons x xs ih =>
    rw [List.mem_cons] at hmem
    rcases hmem with h | h
    · subst h; simp [alookup]
    · by_cases hx : x = a
      · subst hx; simp [alookup]
      · simpa [alookup, hx] using ih h

theorem keys_keyed_map {β : Type} (l : List String) (f : String → β) :
    (l.map (fun x => (x, f x))).map Prod.fst = l := by
  induction l with
  | nil => rfl
  | cons x xs ih => simp [ih]

theorem alookup_mem_of_nodup {β : Type} {m : List (String × β)} {a : String} {b : β}
    (hnd : (m.map Prod.fst).Nodup) (hmem : (a, b) ∈ m) : alookup m a = some b := by
  induction m with
  | nil => simp at hmem
  | cons kv rest ih =>
    simp only [List.map_cons, List.nodup_cons] at hnd
    rw [List.mem_cons] at hmem
    rcases hmem with h | h
    · subst h; simp [alookup]
    · have hne : kv.1 ≠ a := by
        intro he
        exact hnd.1 (he ▸ (List.mem_map.2 ⟨(a, b), h, rfl⟩))
      simpa [alookup, hne] using ih hnd.2 h

theorem lookupD_of_mem_nodup {m : List (String × K)} {a : String} {b : K}
    (hnd : (m.map Prod.fst).Nodup) (hmem : (a, b) ∈ m) : lookupD m a = b := by
  rw [lookupD, alookup_mem_of_nodup hnd hmem, Option.getD_some]

theorem alookup_append {β : Type} (m l : List (String × β)) (k : String) :
    alookup (m ++ l) k
      = match alookup m k with | some v => some v | none => alookup l k := by
  induction m with
  | nil => rfl
  | cons kv rest ih =>
    by_cases h : kv.1 = k <;> simp [alookup, h, ih]

theorem hasKey_append {β : Type} (m l : List (String × β)) (k : String) :
    hasKey (m ++ l) k = (hasKey m k || hasKey l k) := by
  induction m with
  | nil => rfl
  | cons kv rest ih => simp [hasKey, ih, Bool.or_assoc]

theorem lookupD_append_zero (m : List (String × K)) (k k' : String) :
    lookupD (m ++ [(k, 0)]) k' = lookupD m k' := by
  unfold lookupD
  rw [alookup_append]
  cases h : alookup m k'
  · by_cases hk : k = k' <;> simp [alookup, hk]
  · simp

theorem lookupD_insertIfAbsent (m : List (String × K)) (k k' : String) :
    lookupD (insertIfAbsent m k) k' = lookupD m k' := by
  unfold insertIfAbsent
  split
  · rfl
  · exact lookupD_append_zero m k k'

theorem hasKey_insertIfAbsent (m : List (String × K)) (k k' : String)
    (h : hasKey m k' = true) : hasKey (insertIfAbsent m k) k' = true := by
  unfold insertIfAbsent
  split
  · exact h
  · rw [hasKey_append, h, Bool.true_or]

theorem hasKey_insertIfAbsent_self (m : List (String × K)) (k : String) :
    hasKey (insertIfAbsent m k) k = true := by
  unfold insertIfAbsent
  split
  case isTrue h => exact h
  case isFalse h => simp [hasKey_append, hasKey]

theorem activate_eq_actStep (expF : K → K) (r : RuleNode K) (features : List (String × K)) :
    RuleNode.activate expF r features =
      (sigmoid expF (features.foldl actStep (r.bias, r.w_in)).1,
       { r with w_in := (features.foldl actStep (r.bias, r.w_in)).2,
                last_act := sigmoid expF (features.foldl actStep (r.bias, r.w_in)).1 }) :=
  rfl

theorem actStep_fold_lookupD (features : List (String × K)) (acc : K × List (String × K))
    (k : String) :
    lookupD (features.foldl actStep acc).2 k = lookupD acc.2 k := by
  induction features generalizing acc with
  | nil => rfl
  | cons fv rest ih =>
    rw [List.foldl_cons, ih]
    exact lookupD_insertIfAbsent ..

theorem actStep_fold_hasKey_mono (features : List (String × K)) (acc : K × List (String × K))
    (k : String) (h : hasKey acc.2 k = true) :
    hasKey (features.foldl actStep acc).2 k = true := by
  induction features generalizing acc with
  | nil => exact h
  | cons fv rest ih =>
    rw [List.foldl_cons]
    exact ih _ (hasKey_insertIfAbsent _ _ _ h)

theorem actStep_fold_hasKey (features : List (String × K)) :
    ∀ (acc : K × List (String × K)) (fv : String × K), fv ∈ features →
      hasKey (features.foldl actStep acc).2 fv.1 = true := by
  induction features with
  | nil => intro acc fv h; simp at h
  | cons fv0 rest ih =>
    intro acc fv hm
    rw [List.mem_cons] at hm
    rw [List.foldl_cons]
    rcases hm with h | h
    · subst h
      exact actStep_fold_hasKey_mono rest _ _ (hasKey_insertIfAbsent_self ..)
    · exact ih _ fv h

theorem actStep_fold_fst_congr (features : List (String × K)) (b : K)
    (m₁ m₂ : List (String × K)) (h : ∀ k, lookupD m₁ k = lookupD m₂ k) :
    (features.foldl actStep (b, m₁)).1 = (features.foldl actStep (b, m₂)).1 := by
  induction features generalizing b m₁ m₂ with
  | nil => rfl
  | cons fv rest ih =>
    rw [List.foldl_cons, List.foldl_cons]
    show (rest.foldl actStep (b + lookupD m₁ fv.1 * fv.2, insertIfAbsent m₁ fv.1)).1
        = (rest.foldl actStep (b + lookupD m₂ fv.1 * fv.2, insertIfAbsent m₂ fv.1)).1
    rw [h fv.1]
    exact ih _ _ _ (fun k => by
      rw [lookupD_insertIfAbsent, lookupD_insertIfAbsent]; exact h k)

theorem actStep_fold_snd_id (features : List (String × K)) (b : K) (m : List (String × K))
    (h : ∀ fv ∈ features, hasKey m fv.1 = true) :
    (features.foldl actStep (b, m)).2 = m := by
  induction features generalizing b with
  | nil => rfl
  | cons fv rest ih =>
    rw [List.foldl_cons]
    have hins : insertIfAbsent m fv.1 = m := by
      unfold insertIfAbsent
      rw [if_pos (h fv (List.mem_cons_self _ _))]
    show (rest.foldl actStep (b + lookupD m fv.1 * fv.2, insertIfAbsent m fv.1)).2 = m
    rw [hins]
    exact ih _ (fun fv' h' => h fv' (List.mem_cons_of_mem _ h'))

theorem activate_preserves (expF : K → K) (r : RuleNode K) (features : List (String × K)) :
    (RuleNode.activate expF r features).2.bias = r.bias ∧
    (RuleNode.activate expF r features).2.w_out = r.w_out ∧
    ∀ k, lookupD (RuleNode.activate expF r features).2.w_in k = lookupD r.w_in k :=
  ⟨rfl, rfl, fun k => actStep_fold_lookupD features (r.bias, r.w_in) k⟩

theorem activate_idem (expF : K → K) (r : RuleNode K) (features : List (String × K)) :
    RuleNode.activate expF (RuleNode.activate expF r features).2 features
      = RuleNode.activate expF r features := by
  rw [activate_eq_actStep expF r features, activate_eq_actStep]
  have hkeys : ∀ fv ∈ features,
      hasKey (features.foldl actStep (r.bias, r.w_in)).2 fv.1 = true :=
    fun fv h => actStep_fold_hasKey features (r.bias, r.w_in) fv h
  have hsnd : (features.foldl actStep
      (r.bias, (features.foldl actStep (r.bias, r.w_in)).2)).2
      = (features.foldl actStep (r.bias, r.w_in)).2 :=
    actStep_fold_snd_id features r.bias _ hkeys
  have hfst : (features.foldl actStep
      (r.bias, (features.foldl actStep (r.bias, r.w_in)).2)).1
      = (features.foldl actStep (r.bias, r.w_in)).1 :=
    actStep_fold_fst_congr features r.bias _ _
      (fun k => actStep_fold_lookupD features (r.bias, r.w_in) k)
  simp only [hsnd, hfst]

/-! ### The forward pass: shape, softmax bounds, purity -/

theorem forward_some_inv {expF : K → K} {g : LogicGraph K} {features : List (String × K)}
    {out : ForwardOut K} (h : LogicGraph.forward expF g features = some out) :
    out = ⟨ruleActsOf expF g features, forwardLogits expF g features,
           forwardPolicy expF g features, forwardGraph expF g features⟩ ∧
    g.actions.dedup ≠ [] := by
  unfold LogicGraph.forward at h
  split at h
  · split at h
    case h_1 hnil => exact absurd h (by simp)
    case h_2 k0 krest hk =>
      refine ⟨(Option.some.inj h).symm, ?_⟩
      rw [hk]
      simp
  · exact absurd h (by simp)

theorem foldl_max_mem (l : List K) (a : K) : l.foldl max a = a ∨ l.foldl max a ∈ l := by
  induction l generalizing a with
  | nil => left; rfl
  | cons x xs ih =>
    rw [List.foldl_cons]
    rcases ih (max a x) with h | h
    · rw [h]
      rcases le_total a x with hax | hxa
      · right
        rw [max_eq_right hax]
        exact List.mem_cons_self _ _
      · left
        rw [max_eq_left hxa]
    · right
      exact List.mem_cons_of_mem _ h

theorem forwardMx_attained (expF : K → K) (g : LogicGraph K) (features : List (String × K))
    (hne : g.actions.dedup ≠ []) :
    ∃ a ∈ g.actions.dedup, forwardLogit expF g features a = forwardMx expF g features := by
  obtain ⟨k0, krest, hk⟩ := List.exists_cons_of_ne_nil hne
  have hmx : forwardMx expF g features
      = (krest.map (forwardLogit expF g features)).foldl max
          (forwardLogit expF g features k0) := by
    unfold forwardMx
    rw [hk]
  rcases foldl_max_mem (krest.map (forwardLogit expF g features))
      (forwardLogit expF g features k0) with h | h
  · exact ⟨k0, by rw [hk]; exact List.mem_cons_self _ _, by rw [hmx, h]⟩
  · obtain ⟨a, ha, hEq⟩ := List.mem_map.1 h
    exact ⟨a, by rw [hk]; exact List.mem_cons_of_mem _ ha, by rw [hmx, hEq]⟩

theorem sum_map_div (l : List String) (f : String → K) (z : K) :
    (l.map (fun a => f a / z)).sum = (l.map f).sum / z := by
  induction l with
  | nil => simp
  | cons x xs ih => simp [ih, add_div]

theorem forwardZ_ge_one (expF : K → K) (hpos : ∀ x, 0 < expF x) (h0 : expF 0 = 1)
    (g : LogicGraph K) (features : List (String × K)) (hne : g.actions.dedup ≠ []) :
    1 ≤ (g.actions.dedup.map (forwardExp expF g features)).sum ∧
    1 ≤ forwardZ expF g features := by
  obtain ⟨a, ha, hEq⟩ := forwardMx_attained expF g features hne
  have hone : forwardExp expF g features a = 1 := by
    unfold forwardExp
    rw [hEq, sub_self, h0]
  have hmem : forwardExp expF g features a
      ∈ g.actions.dedup.map (forwardExp expF g features) :=
    List.mem_map.2 ⟨a, ha, rfl⟩
  have hS : 1 ≤ (g.actions.dedup.map (forwardExp expF g features)).sum := by
    rw [← hone]
    exact List.single_le_sum
      (fun x hx => by
        obtain ⟨b, -, rfl⟩ := List.mem_map.1 hx
        exact (hpos _).le) _ hmem
  refine ⟨hS, ?_⟩
  unfold forwardZ
  have : (0 : K) < 1 / 1000000000 := by norm_num
  linarith

/-- Claim C3: for every graph on which `forward` succeeds (it requires at
least one action) and every feature mapping, the returned policy assigns
every action a probability strictly inside `(0, 1)`, and the probabilities
sum to `1` within `1e-6` (indeed within `1e-9`), whatever the spread of the
logits.  `expF` stands for the real exponential; the two facts used are
its positivity and `exp 0 = 1`. -/
theorem C3_softmax_policy (expF : K → K) (hpos : ∀ x, 0 < expF x) (h0 : expF 0 = 1)
    (g : LogicGraph K) (features : List (String × K)) (out : ForwardOut K)
    (hfw : LogicGraph.forward expF g features = some out) :
    (∀ a ∈ g.actions, 0 < lookupD out.policy a ∧ lookupD out.policy a < 1) ∧
    |1 - (out.policy.map (fun p => p.2)).sum| ≤ 1/1000000 := by
  obtain ⟨rfl, hne⟩ := forward_some_inv hfw
  obtain ⟨hS1, hZ1⟩ := forwardZ_ge_one expF hpos h0 g features hne
  have hZpos : (0 : K) < forwardZ expF g features := lt_of_lt_of_le one_pos hZ1
  have heps : (0 : K) < 1 / 1000000000 := by norm_num
  have hSZ : (g.actions.dedup.map (forwardExp expF g features)).sum
      < forwardZ expF g features := by
    unfold forwardZ
    linarith
  constructor
  · intro a ha
    have had : a ∈ g.actions.dedup := List.mem_dedup.2 ha
    have hlook : lookupD (forwardPolicy expF g features) a
        = forwardExp expF g features a / forwardZ expF g features := by
      unfold lookupD forwardPolicy
      rw [alookup_keyed_map _ _ _ had, Option.getD_some]
    rw [hlook]
    constructor
    · exact div_pos (hpos _) hZpos
    · rw [div_lt_one hZpos]
      calc forwardExp expF g features a
          ≤ (g.actions.dedup.map (forwardExp expF g features)).sum :=
            List.single_le_sum
              (fun x hx => by
                obtain ⟨b, -, rfl⟩ := List.mem_map.1 hx
                exact (hpos _).le) _ (List.mem_map.2 ⟨a, had, rfl⟩)
        _ < forwardZ expF g features := hSZ
  · have hmaps : (forwardPolicy expF g features).map (fun p => p.2)
        = g.actions.dedup.map
            (fun a => forwardExp expF g features a / forwardZ expF g features) := by
      unfold forwardPolicy
      rw [List.map_map]
      rfl
    rw [hmaps, sum_map_div]
    have hsum : 1 - (g.actions.dedup.map (forwardExp expF g features)).sum
        / forwardZ expF g features = (1 / 1000000000) / forwardZ expF g features := by
      rw [eq_div_iff (ne_of_gt hZpos), sub_mul, div_mul_cancel₀ _ (ne_of_gt hZpos), one_mul]
      unfold forwardZ
      ring
    rw [abs_of_nonneg (by
      rw [sub_nonneg, div_le_one hZpos]
      exact hSZ.le)]
    rw [hsum]
    calc (1 / 1000000000 : K) / forwardZ expF g features
        ≤ 1 / 1000000000 := div_le_self heps.le hZ1
      _ ≤ 1/1000000 := by norm_num

theorem forwardGraph_actions (expF : K → K) (g : LogicGraph K)
    (features : List (String × K)) : (forwardGraph expF g features).actions = g.actions :=
  rfl

theorem forwardGraph_idem (expF : K → K) (g : LogicGraph K) (features : List (String × K)) :
    forwardGraph expF (forwardGraph expF g features) features
      = forwardGraph expF g features := by
  unfold forwardGraph
  simp only [List.map_map]
  congr 1
  apply List.map_congr_left
  intro nr _
  show (nr.1, (RuleNode.activate expF (RuleNode.activate expF nr.2 features).2 features).2)
      = (nr.1, (RuleNode.activate expF nr.2 features).2)
  rw [activate_idem]

theorem ruleActsOf_idem (expF : K → K) (g : LogicGraph K) (features : List (String × K)) :
    ruleActsOf expF (forwardGraph expF g features) features
      = ruleActsOf expF g features := by
  unfold ruleActsOf forwardGraph
  simp only [List.map_map]
  apply List.map_congr_left
  intro nr _
  show (nr.1, (RuleNode.activate expF (RuleNode.activate expF nr.2 features).2 features).1)
      = (nr.1, (RuleNode.activate expF nr.2 features).1)
  rw [activate_idem]

theorem forwardLogit_fun_idem (expF : K → K) (g : LogicGraph K)
    (features : List (String × K)) :
    forwardLogit expF (forwardGraph expF g features) features
      = forwardLogit expF g features := by
  funext a
  unfold forwardLogit
  rw [forwardGraph_idem]

theorem forwardMx_idem (expF : K → K) (g : LogicGraph K) (features : List (String × K)) :
    forwardMx expF (forwardGraph expF g features) features = forwardMx expF g features := by
  unfold forwardMx
  rw [forwardGraph_actions, forwardLogit_fun_idem]

theorem forwardExp_fun_idem (expF : K → K) (g : LogicGraph K)
    (features : List (String × K)) :
    forwardExp expF (forwardGraph expF g features) features
      = forwardExp expF g features := by
  funext a
  unfold forwardExp
  rw [forwardLogit_fun_idem, forwardMx_idem]

theorem forwardZ_idem (expF : K → K) (g : LogicGraph K) (features : List (String × K)) :
    forwardZ expF (forwardGraph expF g features) features = forwardZ expF g features := by
  unfold forwardZ
  rw [forwardGraph_actions, forwardExp_fun_idem]

theorem forwardPolicy_idem (expF : K → K) (g : LogicGraph K)
    (features : List (String × K)) :
    forwardPolicy expF (forwardGraph expF g features) features
      = forwardPolicy expF g features := by
  unfold forwardPolicy
  rw [forwardGraph_actions, forwardExp_fun_idem, forwardZ_idem]

theorem forwardLogits_idem (expF : K → K) (g : LogicGraph K)
    (features : List (String × K)) :
    forwardLogits expF (forwardGraph expF g features) features
      = forwardLogits expF g features := by
  unfold forwardLogits
  rw [forwardGraph_actions, forwardLogit_fun_idem]

/-- A second `forward` pass on the updated graph is the very same call. -/
theorem forward_repeat (expF : K → K) (g : LogicGraph K) (features : List (String × K)) :
    LogicGraph.forward expF (forwardGraph expF g features) features
      = LogicGraph.forward expF g features := by
  unfold LogicGraph.forward
  rw [forwardGraph_idem, forwardGraph_actions, ruleActsOf_idem, forwardLogits_idem,
    forwardPolicy_idem]

/-- Claim C10: `forward` never changes the numeric value of any bias,
input weight or output weight (it may only insert zero-valued input-weight
entries, invisible to `lookupD`, and overwrite the transient `last_act`);
consequently a second `forward` call on the same graph with the same
features returns the very same output, and an interleaved repeated
`forward` leaves every subsequent `imprint` call — in particular its `Dw`
and `dW_step` — unchanged. -/
theorem C10_forward_is_weight_pure (expF : K → K) (g : LogicGraph K)
    (features : List (String × K)) (out : ForwardOut K)
    (hfw : LogicGraph.forward expF g features = some out) :
    (out.graph.actions = g.actions ∧
     List.Forall₂ (fun nr nr' : String × RuleNode K =>
        nr'.1 = nr.1 ∧ nr'.2.bias = nr.2.bias ∧ nr'.2.w_out = nr.2.w_out ∧
        ∀ k, lookupD nr'.2.w_in k = lookupD nr.2.w_in k) g.rules out.graph.rules) ∧
    LogicGraph.forward expF out.graph features = some out ∧
    (∀ out2 : ForwardOut K, LogicGraph.forward expF out.graph features = some out2 →
      ∀ (cfg : LiveImprinter K) (st : ImprinterState K)
        (features' rule_acts policy : List (String × K)) (chosen : String) (reward nv : K)
        (rng : Rng K),
        imprint cfg st out2.graph features' rule_acts policy chosen reward nv rng
          = imprint cfg st out.graph features' rule_acts policy chosen reward nv rng) := by
  obtain ⟨rfl, -⟩ := forward_some_inv hfw
  have hsecond : LogicGraph.forward expF (forwardGraph expF g features) features
      = some (⟨ruleActsOf expF g features, forwardLogits expF g features,
               forwardPolicy expF g features, forwardGraph expF g features⟩ : ForwardOut K) :=
    (forward_repeat expF g features).trans hfw
  refine ⟨⟨rfl, ?_⟩, hsecond, ?_⟩
  · show List.Forall₂ _ g.rules
      (g.rules.map (fun nr => (nr.1, (RuleNode.activate expF nr.2 features).2)))
    rw [List.forall₂_map_right_iff]
    rw [List.forall₂_same]
    intro nr _
    exact ⟨rfl, (activate_preserves expF nr.2 features).1,
      (activate_preserves expF nr.2 features).2.1,
      (activate_preserves expF nr.2 features).2.2⟩
  · intro out2 h2 cfg st features' rule_acts policy chosen reward nv rng
    have : out2 = ⟨ruleActsOf expF g features, forwardLogits expF g features,
        forwardPolicy expF g features, forwardGraph expF g features⟩ :=
      Option.some.inj (h2.symm.trans hsecond)
    rw [this]

/-! ### Inverting a successful `imprint` call -/

theorem imprint_some_inv {cfg : LiveImprinter K} {st : ImprinterState K}
    {g : LogicGraph K} {features rule_acts policy : List (String × K)} {chosen : String}
    {reward nv : K} {rng : Rng K} {out : StepOut K}
    (h : imprint cfg st g features rule_acts policy chosen reward nv rng = some out) :
    (alookup policy chosen).isSome = true ∧
    ∃ g2 mutated rng2,
      updatePhase cfg g features policy chosen (preLr cfg st g policy chosen) reward
          (preTd cfg policy chosen reward nv) (preGov cfg st g policy chosen).1
          (preGov cfg st g policy chosen).2.2 (preVol st policy chosen) rng
        = some (g2, mutated, rng2) ∧
      out = stepFinish cfg (divergence_score cfg (stabilityPush st policy chosen) g policy false).st
          g2 policy (preGov cfg st g policy chosen).1 (preLr cfg st g policy chosen)
          (preVol st policy chosen) mutated rng2 := by
  unfold imprint at h
  split at h
  case isFalse => exact absurd h (by simp)
  case isTrue hk =>
    refine ⟨hk, ?_⟩
    split at h
    case h_1 => exact absurd h (by simp)
    case h_2 g2 mutated rng2 heq =>
      exact ⟨g2, mutated, rng2, heq, (Option.some.inj h).symm⟩

theorem govDecide_limit_scale (cfg : LiveImprinter K) (d v : K)
    (h : (govDecide cfg d v).1 = "limit") : (govDecide cfg d v).2.1 = 0 := by
  cases hgov : cfg.governor with
  | none => simp [govDecide, hgov] at h
  | some gov =>
    simp only [govDecide, hgov, EthosGovernor.decide] at h ⊢
    split_ifs at h ⊢ <;> simp_all

theorem stepFinish_record (cfg : LiveImprinter K) (stA : ImprinterState K)
    (g2 : LogicGraph K) (policy : List (String × K)) (mode : String)
    (lr_eff volatility : K) (mutated : Bool) (rng2 : Rng K) :
    (stepFinish cfg stA g2 policy mode lr_eff volatility mutated rng2).record.mode = mode ∧
    (stepFinish cfg stA g2 policy mode lr_eff volatility mutated rng2).record.lr_eff = lr_eff ∧
    (stepFinish cfg stA g2 policy mode lr_eff volatility mutated rng2).record.mutated = mutated ∧
    (stepFinish cfg stA g2 policy mode lr_eff volatility mutated rng2).graph = g2 :=
  ⟨rfl, rfl, rfl, rfl⟩

/-! ### Claim theorems: governor case split, determinism, invalid action -/

/-- Claim C2: with the default thresholds (warn 0.50, limit 0.70,
quarantine 0.85, tau 0.02) the governor's decision is exactly the stated
four-way case split, and whenever an `imprint` call reports mode "limit"
its reported effective learning rate `base_lr * scale` is `0`. -/
theorem C2_governor_case_split :
    (∀ d v : K, (defaultGovernor K).decide d v =
      if 17/20 ≤ d then ("quarantine", (0 : K), false)
      else if 7/10 ≤ d then ("limit", (0 : K), false)
      else if 1/2 ≤ d then ("warning", (1/2 : K), if v < 1/50 then true else false)
      else ("allow", (1 : K), if v < 1/50 then true else false)) ∧
    (∀ (cfg : LiveImprinter K) (st : ImprinterState K) (g : LogicGraph K)
      (features rule_acts policy : List (String × K)) (chosen : String) (reward nv : K)
      (rng : Rng K) (out : StepOut K),
      imprint cfg st g features rule_acts policy chosen reward nv rng = some out →
      out.record.mode = "limit" → out.record.lr_eff = 0) := by
  constructor
  · intro d v; rfl
  · intro cfg st g features rule_acts policy chosen reward nv rng out h hmode
    obtain ⟨-, g2, mutated, rng2, -, rfl⟩ := imprint_some_inv h
    rw [(stepFinish_record ..).1] at hmode
    rw [(stepFinish_record ..).2.1, preLr]
    unfold preGov at hmode ⊢
    rw [govDecide_limit_scale _ _ _ hmode, mul_zero]

/-- Claim C7: two runs over the same sequence of per-step inputs, from
identical initial imprinter states, graphs and random-generator states,
produce identical record sequences, final states and final graphs. -/
theorem C7_determinism (cfg₁ cfg₂ : LiveImprinter K) (st₁ st₂ : ImprinterState K)
    (g₁ g₂ : LogicGraph K) (rng₁ rng₂ : Rng K) (inputs₁ inputs₂ : List (StepInput K))
    (hcfg : cfg₁ = cfg₂) (hst : st₁ = st₂) (hg : g₁ = g₂) (hrng : rng₁ = rng₂)
    (hin : inputs₁ = inputs₂) :
    runSteps cfg₁ st₁ g₁ rng₁ inputs₁ = runSteps cfg₂ st₂ g₂ rng₂ inputs₂ := by
  subst hcfg hst hg hrng hin; rfl

/-- Claim C8: an `imprint` call whose chosen action is not a key of the
policy dict fails fast (the very first statement raises), before any
weight, window or snapshot is touched — the call returns no new state at
all; and a policy produced by `forward` has exactly the graph's (distinct)
actions as keys, so a chosen action outside the action set is exactly this
failure case. -/
theorem C8_invalid_action_fails_fast :
    (∀ (cfg : LiveImprinter K) (st : ImprinterState K) (g : LogicGraph K)
      (features rule_acts policy : List (String × K)) (chosen : String) (reward nv : K)
      (rng : Rng K), alookup policy chosen = none →
      imprint cfg st g features rule_acts policy chosen reward nv rng = none) ∧
    (∀ (expF : K → K) (g : LogicGraph K) (features : List (String × K)) (out : ForwardOut K)
      (chosen : String), LogicGraph.forward expF g features = some out →
      chosen ∉ g.actions →
      ∀ (cfg : LiveImprinter K) (st : ImprinterState K) (g' : LogicGraph K)
        (features' rule_acts : List (String × K)) (reward nv : K) (rng : Rng K),
        imprint cfg st g' features' rule_acts out.policy chosen reward nv rng = none) := by
  have base : ∀ (cfg : LiveImprinter K) (st : ImprinterState K) (g : LogicGraph K)
      (features rule_acts policy : List (String × K)) (chosen : String) (reward nv : K)
      (rng : Rng K), alookup policy chosen = none →
      imprint cfg st g features rule_acts policy chosen reward nv rng = none := by
    intro cfg st g features rule_acts policy chosen reward nv rng h
    unfold imprint
    rw [h]
    rfl
  refine ⟨base, ?_⟩
  intro expF g features out chosen hfw hnot cfg st g' features' rule_acts reward nv rng
  have hpol : out.policy = forwardPolicy expF g features := by
    unfold LogicGraph.forward at hfw
    split at hfw
    · split at hfw
      · exact absurd hfw (by simp)
      · exact congrArg ForwardOut.policy (Option.some.inj hfw).symm
    · exact absurd hfw (by simp)
  refine base _ _ _ _ _ _ _ _ _ _ ?_
  rw [hpol, forwardPolicy, alookup_eq_none, keys_keyed_map]
  intro hmem
  exact hnot (List.mem_dedup.1 hmem)

/-! ### L1 distances: nonnegativity, self-distance, lookup-congruence -/

theorem lookupD_eq_zero_of_not_mem {m : List (String × K)} {k : String}
    (h : k ∉ m.map Prod.fst) : lookupD m k = 0 := by
  rw [lookupD, (alookup_eq_none m k).2 h, Option.getD_none]

theorem l1diffMaps_nonneg (fmap m : List (String × K)) : 0 ≤ l1diffMaps fmap m :=
  Finset.sum_nonneg (fun _ _ => abs_nonneg _)

theorem l1diffMaps_self (m₀ : List (String × K)) : l1diffMaps m₀ m₀ = 0 := by
  unfold l1diffMaps
  exact Finset.sum_eq_zero (fun k _ => by rw [sub_self, abs_zero])

theorem l1diffMaps_congr (fmap m₁ m₂ : List (String × K))
    (h : ∀ k, lookupD m₁ k = lookupD m₂ k) :
    l1diffMaps fmap m₁ = l1diffMaps fmap m₂ := by
  unfold l1diffMaps
  have hzero : ∀ (m : List (String × K)), (∀ k, lookupD m₁ k = lookupD m k) →
      ∀ x ∈ ((fmap.map Prod.fst ++ m₁.map Prod.fst).toFinset
              ∪ (fmap.map Prod.fst ++ m₂.map Prod.fst).toFinset),
        x ∉ (fmap.map Prod.fst ++ m.map Prod.fst).toFinset →
        |lookupD m₁ x - lookupD fmap x| = 0 := by
    intro m hm x _ hx
    rw [List.mem_toFinset, List.mem_append] at hx
    push_neg at hx
    rw [hm x, lookupD_eq_zero_of_not_mem hx.2, lookupD_eq_zero_of_not_mem hx.1,
      sub_self, abs_zero]
  have h1 : ((fmap.map Prod.fst ++ m₁.map Prod.fst).toFinset).sum
        (fun k => |lookupD m₁ k - lookupD fmap k|)
      = (((fmap.map Prod.fst ++ m₁.map Prod.fst).toFinset
          ∪ (fmap.map Prod.fst ++ m₂.map Prod.fst).toFinset)).sum
        (fun k => |lookupD m₁ k - lookupD fmap k|) :=
    Finset.sum_subset Finset.subset_union_left
      (fun x hx hnx => hzero m₁ (fun _ => rfl) x hx hnx)
  have h2 : ((fmap.map Prod.fst ++ m₂.map Prod.fst).toFinset).sum
        (fun k => |lookupD m₂ k - lookupD fmap k|)
      = (((fmap.map Prod.fst ++ m₁.map Prod.fst).toFinset
          ∪ (fmap.map Prod.fst ++ m₂.map Prod.fst).toFinset)).sum
        (fun k => |lookupD m₂ k - lookupD fmap k|) :=
    Finset.sum_subset Finset.subset_union_right
      (fun x hx hnx => by
        rw [← h x]
        exact hzero m₂ h x hx hnx)
  rw [h1, h2]
  exact Finset.sum_congr rfl (fun k _ => by rw [h k])

theorem l1_diff_nonneg (snap : Snapshot K) (g : LogicGraph K) :
    0 ≤ l1_diff_snap_vs_graph snap g := by
  unfold l1_diff_snap_vs_graph
  have habs : ∀ (l : List (String × K)), 0 ≤ (l.map (fun kw => |kw.2|)).sum :=
    fun l => List.sum_nonneg (fun x hx => by
      obtain ⟨kw, -, rfl⟩ := List.mem_map.1 hx
      exact abs_nonneg _)
  have h1 : 0 ≤ (snap.bias.map
      (fun nb => |((alookup g.rules nb.1).map RuleNode.bias).getD 0 - nb.2|)).sum :=
    List.sum_nonneg (fun x hx => by
      obtain ⟨nb, -, rfl⟩ := List.mem_map.1 hx
      exact abs_nonneg _)
  have hmapsum : ∀ (l : List (String × List (String × K)))
      (sel : RuleNode K → List (String × K)),
      (0 : K) ≤ (l.map (fun nm =>
        (match alookup g.rules nm.1 with
        | none => (nm.2.map (fun kw => |kw.2|)).sum
        | some r => l1diffMaps nm.2 (sel r) : K))).sum := by
    intro l sel
    refine List.sum_nonneg (fun x hx => ?_)
    obtain ⟨nm, -, rfl⟩ := List.mem_map.1 hx
    cases alookup g.rules nm.1
    · exact habs nm.2
    · exact l1diffMaps_nonneg ..
  have h2 := hmapsum snap.w_in (fun r => r.w_in)
  have h3 := hmapsum snap.w_out (fun r => r.w_out)
  exact add_nonneg (add_nonneg h1 h2) h3

theorem alookup_map_value {β γ : Type} (m : List (String × β)) (f : β → γ) (k : String) :
    alookup (m.map (fun p => (p.1, f p.2))) k = (alookup m k).map f := by
  induction m with
  | nil => rfl
  | cons kv rest ih =>
    by_cases h : kv.1 = k <;> simp [alookup, h, ih]

theorem l1diff_snapshot_self (g : LogicGraph K) (hnd : (g.rules.map Prod.fst).Nodup) :
    l1_diff_snap_vs_graph (snapshot_weights g) g = 0 := by
  unfold l1_diff_snap_vs_graph snapshot_weights
  have hlook : ∀ nr ∈ g.rules, alookup g.rules nr.1 = some nr.2 := by
    intro nr hmem
    exact alookup_mem_of_nodup hnd (by simpa using hmem)
  have h1 : (List.map (fun nb => |((alookup g.rules nb.1).map RuleNode.bias).getD 0 - nb.2|)
      (g.rules.map (fun nr => (nr.1, nr.2.bias)))).sum = 0 := by
    refine List.sum_eq_zero (fun x hx => ?_)
    obtain ⟨y, hy, rfl⟩ := List.mem_map.1 hx
    obtain ⟨nr, hnr, rfl⟩ := List.mem_map.1 hy
    rw [hlook nr hnr]
    simp
  have hpart : ∀ (sel : RuleNode K → List (String × K)),
      (List.map (fun nm =>
          (match alookup g.rules nm.1 with
          | none => (nm.2.map (fun kw => |kw.2|)).sum
          | some r => l1diffMaps nm.2 (sel r) : K))
        (g.rules.map (fun nr => (nr.1, sel nr.2)))).sum = 0 := by
    intro sel
    refine List.sum_eq_zero (fun x hx => ?_)
    obtain ⟨y, hy, rfl⟩ := List.mem_map.1 hx
    obtain ⟨nr, hnr, rfl⟩ := List.mem_map.1 hy
    rw [hlook nr hnr]
    exact l1diffMaps_self _
  rw [h1, hpart (fun r => r.w_in), hpart (fun r => r.w_out)]
  norm_num

/-- A `forward` pass (activation of every rule) leaves every L1 distance
from a stored snapshot unchanged: biases and output weights are untouched
and the input-weight map only gains zero entries. -/
theorem l1diff_forwardGraph (expF : K → K) (snap : Snapshot K) (g : LogicGraph K)
    (features : List (String × K)) :
    l1_diff_snap_vs_graph snap (forwardGraph expF g features)
      = l1_diff_snap_vs_graph snap g := by
  unfold l1_diff_snap_vs_graph forwardGraph
  have hlk : ∀ n : String,
      alookup (g.rules.map (fun nr => (nr.1, (RuleNode.activate expF nr.2 features).2))) n
        = (alookup g.rules n).map (fun r => (RuleNode.activate expF r features).2) :=
    fun n => alookup_map_value g.rules (fun r => (RuleNode.activate expF r features).2) n
  have h1 : ∀ nb : String × K,
      |((alookup (g.rules.map (fun nr => (nr.1, (RuleNode.activate expF nr.2 features).2)))
          nb.1).map RuleNode.bias).getD 0 - nb.2|
        = |((alookup g.rules nb.1).map RuleNode.bias).getD 0 - nb.2| := by
    intro nb
    rw [hlk nb.1]
    cases alookup g.rules nb.1
    · rfl
    case some r =>
      show |(RuleNode.activate expF r features).2.bias - nb.2| = |r.bias - nb.2|
      rw [(activate_preserves expF r features).1]
  have h2 : ∀ nm : String × List (String × K),
      (match alookup (g.rules.map (fun nr => (nr.1, (RuleNode.activate expF nr.2 features).2)))
          nm.1 with
        | none => (nm.2.map (fun kw => |kw.2|)).sum
        | some r => l1diffMaps nm.2 r.w_in : K)
      = (match alookup g.rules nm.1 with
        | none => (nm.2.map (fun kw => |kw.2|)).sum
        | some r => l1diffMaps nm.2 r.w_in : K) := by
    intro nm
    rw [hlk nm.1]
    cases alookup g.rules nm.1
    · rfl
    case some r =>
      show l1diffMaps nm.2 (RuleNode.activate expF r features).2.w_in
          = l1diffMaps nm.2 r.w_in
      exact l1diffMaps_congr _ _ _ (activate_preserves expF r features).2.2
  have h3 : ∀ nm : String × List (String × K),
      (match alookup (g.rules.map (fun nr => (nr.1, (RuleNode.activate expF nr.2 features).2)))
          nm.1 with
        | none => (nm.2.map (fun kw => |kw.2|)).sum
        | some r => l1diffMaps nm.2 r.w_out : K)
      = (match alookup g.rules nm.1 with
        | none => (nm.2.map (fun kw => |kw.2|)).sum
        | some r => l1diffMaps nm.2 r.w_out : K) := by
    intro nm
    rw [hlk nm.1]
    cases alookup g.rules nm.1
    · rfl
    case some r =>
      show l1diffMaps nm.2 (RuleNode.activate expF r features).2.w_out
          = l1diffMaps nm.2 r.w_out
      rw [(activate_preserves expF r features).2.1]
  rw [List.map_congr_left (fun nb _ => h1 nb), List.map_congr_left (fun nm _ => h2 nm),
    List.map_congr_left (fun nm _ => h3 nm)]

/-! ### Rule names survive every graph operation -/

theorem map_fst_map_value {β γ : Type} (m : List (String × β)) (f : β → γ) :
    (m.map (fun p => (p.1, f p.2))).map Prod.fst = m.map Prod.fst := by
  rw [List.map_map]
  exact List.map_congr_left (fun p _ => rfl)

theorem map_fst_set {β : Type} (m : List (String × β)) (i : ℕ) (d : String × β) (x : β) :
    (m.set i ((m.getD i d).1, x)).map Prod.fst = m.map Prod.fst := by
  induction m generalizing i with
  | nil => rfl
  | cons p rest ih =>
    cases i with
    | zero => simp
    | succ n =>
      simp only [List.getD_cons_succ, List.set_cons_succ, List.map_cons]
      rw [ih n]

theorem applyUpdates_names (cfg : LiveImprinter K) (g : LogicGraph K)
    (features policy : List (String × K)) (chosen : String) (lr_eff reward td_error : K) :
    (applyUpdates cfg g features policy chosen lr_eff reward td_error).rules.map Prod.fst
      = g.rules.map Prod.fst ∧
    (applyUpdates cfg g features policy chosen lr_eff reward td_error).actions
      = g.actions := by
  unfold applyUpdates
  exact ⟨by rw [map_fst_map_value, map_fst_map_value, map_fst_map_value], rfl⟩

theorem mutate_names {g : LogicGraph K} {rng : Rng K} {res : LogicGraph K × Rng K}
    (h : mutate g rng = some res) :
    res.1.rules.map Prod.fst = g.rules.map Prod.fst ∧ res.1.actions = g.actions := by
  simp only [mutate] at h
  split at h
  · exact absurd h (by simp)
  · rw [← Option.some.inj h]
    exact ⟨map_fst_set .., rfl⟩

theorem mutatePhase_names {cfg : LiveImprinter K} {g1 : LogicGraph K} {allowNow : Bool}
    {volatility : K} {rng : Rng K} {res : LogicGraph K × Bool × Rng K}
    (h : mutatePhase cfg g1 allowNow volatility rng = some res) :
    res.1.rules.map Prod.fst = g1.rules.map Prod.fst ∧ res.1.actions = g1.actions := by
  unfold mutatePhase at h
  split at h
  · split at h
    · split at h
      · split at h
        · exact absurd h (by simp)
        case h_2 g2 rng2 heq =>
          rw [← Option.some.inj h]
          exact mutate_names heq
      · rw [← Option.some.inj h]
        exact ⟨rfl, rfl⟩
    · rw [← Option.some.inj h]
      exact ⟨rfl, rfl⟩
  · rw [← Option.some.inj h]
    exact ⟨rfl, rfl⟩

theorem updatePhase_names {cfg : LiveImprinter K} {g : LogicGraph K}
    {features policy : List (String × K)} {chosen : String}
    {lr_eff reward td_error : K} {mode : String} {allowNow : Bool} {volatility : K}
    {rng : Rng K} {res : LogicGraph K × Bool × Rng K}
    (h : updatePhase cfg g features policy chosen lr_eff reward td_error mode allowNow
      volatility rng = some res) :
    res.1.rules.map Prod.fst = g.rules.map Prod.fst ∧ res.1.actions = g.actions := by
  unfold updatePhase at h
  split at h
  · rw [← Option.some.inj h]
    exact ⟨rfl, rfl⟩
  · split at h
    · obtain ⟨h1, h2⟩ := mutatePhase_names h
      obtain ⟨h3, h4⟩ := applyUpdates_names cfg g features policy chosen lr_eff reward
        td_error
      exact ⟨h1.trans h3, h2.trans h4⟩
    · exact absurd h (by simp)

/-! ### The mutation window and the recorded divergence components -/

theorem divergence_score_st (cfg : LiveImprinter K) (st : ImprinterState K)
    (g : LogicGraph K) (pol : List (String × K)) (m : Bool) :
    (divergence_score cfg st g pol m).st.mutate_window
        = pushB st.mutate_window (if m then 1 else 0) cfg.mut_window ∧
    (divergence_score cfg st g pol m).st.stability_window = st.stability_window ∧
    (divergence_score cfg st g pol m).st.prev_policy = st.prev_policy ∧
    (divergence_score cfg st g pol m).st.prev_snap = st.prev_snap :=
  ⟨rfl, rfl, rfl, rfl⟩

theorem divergence_score_dm (cfg : LiveImprinter K) (st : ImprinterState K)
    (g : LogicGraph K) (pol : List (String × K)) (m : Bool) :
    (divergence_score cfg st g pol m).dm
        = (divergence_score cfg st g pol m).st.mutate_window.sum
          / ((max 1 (divergence_score cfg st g pol m).st.mutate_window.length : ℕ) : K) :=
  rfl

/-- Total-variation distance of a duplicate-free policy dict to itself
vanishes term by term. -/
theorem tv_self_zero (pol : List (String × K)) (hnd : (pol.map Prod.fst).Nodup) :
    (pol.map (fun ap => |ap.2 - lookupD pol ap.1|)).sum = 0 := by
  apply List.sum_eq_zero
  intro x hx
  obtain ⟨ap, hap, rfl⟩ := List.mem_map.1 hx
  rw [lookupD_of_mem_nodup hnd hap]
  simp

theorem stepFinish_Dpi_zero (cfg : LiveImprinter K) (stA : ImprinterState K)
    (g2 : LogicGraph K) (pol : List (String × K)) (mode : String)
    (lr_eff volatility : K) (mutated : Bool) (rng2 : Rng K)
    (hnd : (pol.map Prod.fst).Nodup) :
    (stepFinish cfg stA g2 pol mode lr_eff volatility mutated rng2).record.Dpi = 0 := by
  show (if 1 < ((pol.map (fun ap => |ap.2 - lookupD pol ap.1|)).sum) * (1/2) then (1 : K)
        else ((pol.map (fun ap => |ap.2 - lookupD pol ap.1|)).sum) * (1/2)) = 0
  rw [tv_self_zero pol hnd, zero_mul, if_neg (by norm_num)]

/-- Claim C5 (amended): on the very first call to `imprint` the returned
record's `Dpi` is `0` for every graph, feature mapping, (dict, hence
duplicate-free) policy, chosen action and reward; the returned `Dw`,
however, is recomputed on the post-update weights against the just-captured
`w0` snapshot and is in general nonzero (see the counterexample). -/
theorem C5_first_record_Dpi_zero (cfg : LiveImprinter K) (g : LogicGraph K)
    (features rule_acts policy : List (String × K)) (chosen : String) (reward nv : K)
    (rng : Rng K) (out : StepOut K) (hnd : (policy.map Prod.fst).Nodup)
    (h : imprint cfg (initState K) g features rule_acts policy chosen reward nv rng
      = some out) :
    out.record.Dpi = 0 := by
  obtain ⟨-, g2, mutated, rng2, -, rfl⟩ := imprint_some_inv h
  exact stepFinish_Dpi_zero _ _ _ _ _ _ _ _ _ hnd

theorem stepFinish_window (cfg : LiveImprinter K) (stA : ImprinterState K)
    (g2 : LogicGraph K) (pol : List (String × K)) (mode : String)
    (lr_eff volatility : K) (mutated : Bool) (rng2 : Rng K) :
    (stepFinish cfg stA g2 pol mode lr_eff volatility mutated rng2).st.mutate_window
        = pushB stA.mutate_window (if mutated then 1 else 0) cfg.mut_window ∧
    (stepFinish cfg stA g2 pol mode lr_eff volatility mutated rng2).record.Dm
        = (stepFinish cfg stA g2 pol mode lr_eff volatility mutated rng2).st.mutate_window.sum
          / ((max 1 (stepFinish cfg stA g2 pol mode lr_eff volatility mutated
                rng2).st.mutate_window.length : ℕ) : K) :=
  ⟨rfl, rfl⟩

/-- Claim C6 (amended): each successful `imprint` call appends *two*
entries to the mutation-occurrence window — a provisional `0` during the
pre-update divergence computation and the step's actual mutation flag
during the post-update recomputation; the provisional entry is never
removed.  The returned `Dm` is the fraction of `1`-entries among the last
`mut_window` (default 50) entries of this double-appended window. -/
theorem C6_mutation_window_double_append (cfg : LiveImprinter K) (st : ImprinterState K)
    (g : LogicGraph K) (features rule_acts policy : List (String × K)) (chosen : String)
    (reward nv : K) (rng : Rng K) (out : StepOut K)
    (h : imprint cfg st g features rule_acts policy chosen reward nv rng = some out) :
    out.st.mutate_window
        = pushB (pushB st.mutate_window 0 cfg.mut_window)
            (if out.record.mutated then 1 else 0) cfg.mut_window ∧
    out.record.Dm
        = out.st.mutate_window.sum / ((max 1 out.st.mutate_window.length : ℕ) : K) := by
  obtain ⟨-, g2, mutated, rng2, -, rfl⟩ := imprint_some_inv h
  rw [(stepFinish_record ..).2.2.1]
  exact stepFinish_window ..

theorem activate_g9 : RuleNode.activate Real.exp (⟨0, [], [("LEFT", 1)], 0⟩ : RuleNode ℝ) []
    = (1/2, ⟨0, [], [("LEFT", 1)], 1/2⟩) := by
  unfold RuleNode.activate sigmoid
  norm_num [Real.exp_zero]

theorem forward_g9 : LogicGraph.forward Real.exp (g9 ℝ) []
    = some ⟨[("r", 1/2)], [("LEFT", 1/2)], [("LEFT", 1/(1 + 1/1000000000))], g9fwd ℝ⟩ := by
  have hfg : forwardGraph Real.exp (g9 ℝ) [] = g9fwd ℝ := by
    unfold forwardGraph g9 g9fwd
    simp [activate_g9]
  have hded : (g9 ℝ).actions.dedup = ["LEFT"] := by
    unfold g9
    simp
  have hL : forwardLogit Real.exp (g9 ℝ) [] "LEFT" = 1/2 := by
    unfold forwardLogit
    rw [hfg]
    unfold g9fwd
    simp [lookupD, alookup]
  have hMx : forwardMx Real.exp (g9 ℝ) [] = 1/2 := by
    unfold forwardMx
    rw [hded]
    simpa using hL
  have hE : forwardExp Real.exp (g9 ℝ) [] "LEFT" = 1 := by
    unfold forwardExp
    rw [hL, hMx, sub_self, Real.exp_zero]
  have hZ : forwardZ Real.exp (g9 ℝ) [] = 1 + 1/1000000000 := by
    unfold forwardZ
    rw [hded]
    simp [hE]
  have hra : ruleActsOf Real.exp (g9 ℝ) [] = [("r", 1/2)] := by
    unfold ruleActsOf g9
    simp [activate_g9]
  have hlg : forwardLogits Real.exp (g9 ℝ) [] = [("LEFT", 1/2)] := by
    unfold forwardLogits
    rw [hded]
    simp [hL]
  have hpol : forwardPolicy Real.exp (g9 ℝ) [] = [("LEFT", 1/(1 + 1/1000000000))] := by
    unfold forwardPolicy
    rw [hded]
    simp [hE, hZ]
  unfold LogicGraph.forward
  rw [hfg]
  rw [if_pos (by unfold g9fwd g9; simp)]
  rw [hded]
  rw [hra, hlg, hpol]

/-- Claim C9 (amended): in the one-rule scenario, `forward` on the empty
feature mapping returns rule activation `sigmoid(0) = 0.5` and
`logit("LEFT") = 0.5`, and `policy("LEFT") = 1/(1 + 1e-9)` — within `1e-9`
of `1.0` but strictly below it (not exactly `1.0`). -/
theorem C9_single_rule_scenario :
    LogicGraph.forward Real.exp (g9 ℝ) []
      = some ⟨[("r", 1/2)], [("LEFT", 1/2)], [("LEFT", 1/(1 + 1/1000000000))], g9fwd ℝ⟩ ∧
    sigmoid Real.exp 0 = 1/2 ∧
    |(1 : ℝ)/(1 + 1/1000000000) - 1| ≤ 1/1000000000 ∧
    (1 : ℝ)/(1 + 1/1000000000) < 1 := by
  have hlt : (1 : ℝ)/(1 + 1/1000000000) < 1 := by
    rw [div_lt_one (by norm_num)]
    norm_num
  refine ⟨forward_g9, ?_, ?_, hlt⟩
  · unfold sigmoid
    norm_num [Real.exp_zero]
  · rw [abs_of_nonpos (by linarith)]
    rw [neg_sub]
    rw [one_sub_div (by norm_num)]
    rw [add_sub_cancel_left]
    rw [div_le_div_iff₀ (by norm_num) (by norm_num)]
    norm_num

/-! ### Bounds on the divergence components, and the reachability invariant -/

theorem clip01_bounds (x : K) : 0 ≤ clip01 x ∧ clip01 x ≤ 1 := by
  unfold clip01
  split_ifs with h1 h2
  · norm_num
  · norm_num
  · exact ⟨le_of_not_lt h1, le_of_not_lt h2⟩

theorem ifclamp_bounds (q : K) (hq : 0 ≤ q) :
    0 ≤ (if 1 < q then (1 : K) else q) ∧ (if 1 < q then (1 : K) else q) ≤ 1 := by
  split_ifs with h
  · norm_num
  · exact ⟨hq, le_of_not_lt h⟩

theorem pushB_mem {l : List K} {x v : K} {cap : ℕ} (h : v ∈ pushB l x cap) :
    v ∈ l ∨ v = x := by
  unfold pushB at h
  have h2 := List.mem_of_mem_drop h
  rcases List.mem_append.1 h2 with h3 | h3
  · exact Or.inl h3
  · rw [List.mem_singleton] at h3
    exact Or.inr h3

theorem dm_bounds (mw : List K) (hmw : ∀ x ∈ mw, 0 ≤ x ∧ x ≤ 1) :
    0 ≤ mw.sum / ((max 1 mw.length : ℕ) : K) ∧
    mw.sum / ((max 1 mw.length : ℕ) : K) ≤ 1 := by
  have hden : (1 : K) ≤ ((max 1 mw.length : ℕ) : K) := by
    exact_mod_cast Nat.le_max_left 1 mw.length
  have hdenpos : (0 : K) < ((max 1 mw.length : ℕ) : K) := lt_of_lt_of_le one_pos hden
  constructor
  · exact div_nonneg (List.sum_nonneg (fun x hx => (hmw x hx).1)) hdenpos.le
  · rw [div_le_one hdenpos]
    calc mw.sum ≤ mw.length • (1 : K) :=
          List.sum_le_card_nsmul mw 1 (fun x hx => (hmw x hx).2)
      _ = (mw.length : K) := by rw [nsmul_eq_mul, mul_one]
      _ ≤ ((max 1 mw.length : ℕ) : K) := by exact_mod_cast Nat.le_max_right 1 mw.length

theorem divergence_score_w0 (cfg : LiveImprinter K) (st : ImprinterState K)
    (g : LogicGraph K) (pol : List (String × K)) (m : Bool) :
    (divergence_score cfg st g pol m).st.w0
      = some (match st.w0 with
          | none => (snapshot_weights g,
              max (l1_norm_snapshot (snapshot_weights g)) (1/1000000000))
          | some p => p) := by
  cases h : st.w0 <;> simp [divergence_score, h]

theorem divergence_score_bounds (cfg : LiveImprinter K) (st : ImprinterState K)
    (g : LogicGraph K) (pol : List (String × K)) (m : Bool)
    (hW : ∀ x ∈ st.mutate_window, 0 ≤ x ∧ x ≤ 1)
    (hF : ∀ p : Snapshot K × K, st.w0 = some p → 1/1000000000 ≤ p.2) :
    (0 ≤ (divergence_score cfg st g pol m).div ∧ (divergence_score cfg st g pol m).div ≤ 1) ∧
    (0 ≤ (divergence_score cfg st g pol m).dw ∧ (divergence_score cfg st g pol m).dw ≤ 1) ∧
    (0 ≤ (divergence_score cfg st g pol m).dpi ∧ (divergence_score cfg st g pol m).dpi ≤ 1) ∧
    (0 ≤ (divergence_score cfg st g pol m).dm ∧ (divergence_score cfg st g pol m).dm ≤ 1) := by
  have hwin : ∀ x ∈ pushB st.mutate_window (if m then 1 else 0) cfg.mut_window,
      0 ≤ x ∧ x ≤ 1 := by
    intro x hx
    rcases pushB_mem hx with h | h
    · exact hW x h
    · subst h
      split_ifs <;> norm_num
  have hdm := dm_bounds (pushB st.mutate_window (if m then 1 else 0) cfg.mut_window) hwin
  have hdpi : ∀ q : List (String × K),
      0 ≤ (if 1 < ((pol.map (fun ap => |ap.2 - lookupD q ap.1|)).sum) * (1/2) then (1 : K)
          else ((pol.map (fun ap => |ap.2 - lookupD q ap.1|)).sum) * (1/2)) ∧
      (if 1 < ((pol.map (fun ap => |ap.2 - lookupD q ap.1|)).sum) * (1/2) then (1 : K)
          else ((pol.map (fun ap => |ap.2 - lookupD q ap.1|)).sum) * (1/2)) ≤ 1 := by
    intro q
    refine ifclamp_bounds _ (mul_nonneg ?_ (by norm_num))
    refine List.sum_nonneg (fun x hx => ?_)
    obtain ⟨ap, -, rfl⟩ := List.mem_map.1 hx
    exact abs_nonneg _
  cases hw0 : st.w0 with
  | none =>
    have hq : 0 ≤ l1_diff_snap_vs_graph (snapshot_weights g) g
        / max (l1_norm_snapshot (snapshot_weights g)) (1/1000000000) :=
      div_nonneg (l1_diff_nonneg ..)
        (le_trans (by norm_num) (le_max_right _ (1/1000000000)))
    cases hp : st.prev_policy with
    | none =>
      simp only [divergence_score, hw0, hp]
      exact ⟨clip01_bounds _, ifclamp_bounds _ hq, by norm_num, hdm⟩
    | some q =>
      simp only [divergence_score, hw0, hp]
      exact ⟨clip01_bounds _, ifclamp_bounds _ hq, hdpi q, hdm⟩
  | some p =>
    have hp2 : (0 : K) < p.2 :=
      lt_of_lt_of_le (by norm_num) (hF p hw0)
    have hq : 0 ≤ l1_diff_snap_vs_graph p.1 g / p.2 :=
      div_nonneg (l1_diff_nonneg ..) hp2.le
    cases hp : st.prev_policy with
    | none =>
      simp only [divergence_score, hw0, hp]
      exact ⟨clip01_bounds _, ifclamp_bounds _ hq, by norm_num, hdm⟩
    | some q =>
      simp only [divergence_score, hw0, hp]
      exact ⟨clip01_bounds _, ifclamp_bounds _ hq, hdpi q, hdm⟩

theorem stepFinish_st_eq (cfg : LiveImprinter K) (stA : ImprinterState K)
    (g2 : LogicGraph K) (pol : List (String × K)) (mode : String) (lr_eff volatility : K)
    (mtd : Bool) (rng2 : Rng K) :
    (stepFinish cfg stA g2 pol mode lr_eff volatility mtd rng2).st
      = (divergence_score cfg (finishState stA g2 pol) g2 pol mtd).st :=
  rfl

theorem stepFinish_record_div (cfg : LiveImprinter K) (stA : ImprinterState K)
    (g2 : LogicGraph K) (pol : List (String × K)) (mode : String) (lr_eff volatility : K)
    (mtd : Bool) (rng2 : Rng K) :
    (stepFinish cfg stA g2 pol mode lr_eff volatility mtd rng2).record.div_score
      = (divergence_score cfg (finishState stA g2 pol) g2 pol mtd).div ∧
    (stepFinish cfg stA g2 pol mode lr_eff volatility mtd rng2).record.Dw
      = (divergence_score cfg (finishState stA g2 pol) g2 pol mtd).dw ∧
    (stepFinish cfg stA g2 pol mode lr_eff volatility mtd rng2).record.Dpi
      = (divergence_score cfg (finishState stA g2 pol) g2 pol mtd).dpi ∧
    (stepFinish cfg stA g2 pol mode lr_eff volatility mtd rng2).record.Dm
      = (divergence_score cfg (finishState stA g2 pol) g2 pol mtd).dm :=
  ⟨rfl, rfl, rfl, rfl⟩

theorem stepFinish_dW (cfg : LiveImprinter K) (stA : ImprinterState K)
    (g2 : LogicGraph K) (pol : List (String × K)) (mode : String) (lr_eff volatility : K)
    (mtd : Bool) (rng2 : Rng K) :
    (stepFinish cfg stA g2 pol mode lr_eff volatility mtd rng2).record.dW_step
      = l1_diff_snap_vs_graph (stA.prev_snap.getD (snapshot_weights g2)) g2 :=
  rfl

theorem preState_window (cfg : LiveImprinter K) (st : ImprinterState K) (g : LogicGraph K)
    (pol : List (String × K)) (ch : String) :
    (divergence_score cfg (stabilityPush st pol ch) g pol false).st.mutate_window
      = pushB st.mutate_window 0 cfg.mut_window :=
  rfl

theorem preState_prev_snap (cfg : LiveImprinter K) (st : ImprinterState K)
    (g : LogicGraph K) (pol : List (String × K)) (ch : String) :
    (divergence_score cfg (stabilityPush st pol ch) g pol false).st.prev_snap
      = st.prev_snap :=
  rfl

theorem preState_w0 (cfg : LiveImprinter K) (st : ImprinterState K) (g : LogicGraph K)
    (pol : List (String × K)) (ch : String) :
    (divergence_score cfg (stabilityPush st pol ch) g pol false).st.w0
      = some (match st.w0 with
          | none => (snapshot_weights g,
              max (l1_norm_snapshot (snapshot_weights g)) (1/1000000000))
          | some p => p) :=
  divergence_score_w0 cfg (stabilityPush st pol ch) g pol false

/-- One successful `imprint` call preserves the state invariant. -/
theorem imprint_step_inv {cfg : LiveImprinter K} {st : ImprinterState K} {g : LogicGraph K}
    {features rule_acts policy : List (String × K)} {chosen : String} {reward nv : K}
    {rng : Rng K} {out : StepOut K}
    (hs : imprint cfg st g features rule_acts policy chosen reward nv rng = some out)
    (hW : ∀ x ∈ st.mutate_window, 0 ≤ x ∧ x ≤ 1)
    (hF : ∀ p : Snapshot K × K, st.w0 = some p → 1/1000000000 ≤ p.2)
    (hN : (g.rules.map Prod.fst).Nodup) :
    (∀ x ∈ out.st.mutate_window, 0 ≤ x ∧ x ≤ 1) ∧
    (∀ p : Snapshot K × K, out.st.w0 = some p → 1/1000000000 ≤ p.2) ∧
    (∀ snap, out.st.prev_snap = some snap →
      l1_diff_snap_vs_graph snap out.graph = 0) ∧
    (out.graph.rules.map Prod.fst).Nodup := by
  obtain ⟨-, g2, mutated, rng2, hup, rfl⟩ := imprint_some_inv hs
  have hnames := updatePhase_names hup
  have hnd2 : (g2.rules.map Prod.fst).Nodup := by
    rw [show ((g2, mutated, rng2) : LogicGraph K × Bool × Rng K).1 = g2 from rfl] at hnames
    rw [hnames.1]
    exact hN
  refine ⟨?_, ?_, ?_, hnd2⟩
  · intro x hx
    rw [stepFinish_st_eq, (divergence_score_st ..).1] at hx
    rcases pushB_mem hx with h | h
    · have h' : x ∈ pushB st.mutate_window 0 cfg.mut_window := h
      rcases pushB_mem h' with h2 | h2
      · exact hW x h2
      · subst h2
        norm_num
    · subst h
      split_ifs <;> norm_num
  · intro p hp
    rw [stepFinish_st_eq, divergence_score_w0] at hp
    have hp2 := Option.some.inj hp
    rw [show (finishState
          (divergence_score cfg (stabilityPush st policy chosen) g policy false).st
          g2 policy).w0
        = (divergence_score cfg (stabilityPush st policy chosen) g policy false).st.w0
        from rfl, preState_w0] at hp2
    cases hw0 : st.w0 with
    | none =>
      rw [hw0] at hp2
      rw [← hp2]
      exact le_max_right _ _
    | some p0 =>
      rw [hw0] at hp2
      rw [← hp2]
      exact hF p0 hw0
  · intro snap hsnap
    rw [stepFinish_st_eq] at hsnap
    rw [(divergence_score_st ..).2.2.2] at hsnap
    have : snap = snapshot_weights g2 := (Option.some.inj hsnap).symm
    subst this
    rw [(stepFinish_record ..).2.2.2]
    exact l1diff_snapshot_self g2 hnd2

/-- Every reachable imprinter state–graph pair satisfies the invariants
the record-range and quarantine theorems rest on. -/
theorem reach_inv {cfg : LiveImprinter K} {st : ImprinterState K} {g : LogicGraph K}
    (h : Reach cfg st g) :
    (∀ x ∈ st.mutate_window, 0 ≤ x ∧ x ≤ 1) ∧
    (∀ p : Snapshot K × K, st.w0 = some p → 1/1000000000 ≤ p.2) ∧
    (∀ snap, st.prev_snap = some snap → l1_diff_snap_vs_graph snap g = 0) ∧
    (g.rules.map Prod.fst).Nodup := by
  induction h with
  | init g hnd =>
    refine ⟨fun x hx => absurd hx (List.not_mem_nil x), fun p hp => ?_, fun s hs => ?_, hnd⟩
    · exact absurd hp (by simp [initState])
    · exact absurd hs (by simp [initState])
  | imprint_step h hs ih =>
    exact imprint_step_inv hs ih.1 ih.2.1 ih.2.2.2
  | @forward_step st' g' expF' features' out' h hf ih =>
    obtain ⟨hout, -⟩ := forward_some_inv hf
    have hg : out'.graph = forwardGraph expF' g' features' := by rw [hout]
    rw [hg]
    refine ⟨ih.1, ih.2.1, fun snap hsnap => ?_, ?_⟩
    · rw [l1diff_forwardGraph]
      exact ih.2.2.1 snap hsnap
    · have hfst : (forwardGraph expF' g' features').rules.map Prod.fst
          = g'.rules.map Prod.fst :=
        map_fst_map_value g'.rules (fun r => (RuleNode.activate expF' r features').2)
      rw [hfst]
      exact ih.2.2.2

/-- Claim C1: at any reachable state, an `imprint` call whose pre-update
divergence score reaches the governor's quarantine threshold (default 0.85)
is gated to mode "quarantine": the graph — every bias, input weight and
output weight — is returned unchanged, no structural mutation happens, and
the returned record's `dW_step` is `0`. -/
theorem C1_quarantine_freezes (cfg : LiveImprinter K) (gov : EthosGovernor K)
    (st : ImprinterState K) (g : LogicGraph K)
    (features rule_acts policy : List (String × K)) (chosen : String) (reward nv : K)
    (rng : Rng K) (out : StepOut K)
    (hreach : Reach cfg st g) (hgov : cfg.governor = some gov)
    (hdiv : gov.quarantine_thresh ≤ preDivScore cfg st g policy chosen)
    (himp : imprint cfg st g features rule_acts policy chosen reward nv rng = some out) :
    out.record.mode = "quarantine" ∧ out.graph = g ∧ out.record.mutated = false ∧
    out.record.dW_step = 0 := by
  obtain ⟨-, -, hsnap, hnd⟩ := reach_inv hreach
  have hdec : preGov cfg st g policy chosen = ("quarantine", 0, false) := by
    unfold preGov govDecide
    rw [hgov]
    show gov.decide (preDivScore cfg st g policy chosen) (preVol st policy chosen)
        = ("quarantine", 0, false)
    unfold EthosGovernor.decide
    rw [if_pos hdiv]
  obtain ⟨-, g2, mutated, rng2, hup, rfl⟩ := imprint_some_inv himp
  rw [hdec] at hup
  have hq : updatePhase cfg g features policy chosen (preLr cfg st g policy chosen) reward
      (preTd cfg policy chosen reward nv) (("quarantine", (0 : K), false) : String × K × Bool).1
      (("quarantine", (0 : K), false) : String × K × Bool).2.2 (preVol st policy chosen) rng
      = some (g, false, rng) := by
    unfold updatePhase
    rw [if_pos rfl]
  have htup : (g2, mutated, rng2) = ((g, false, rng) : LogicGraph K × Bool × Rng K) :=
    Option.some.inj (hup.symm.trans hq)
  obtain ⟨hg2, hmut, hrng⟩ : g2 = g ∧ mutated = false ∧ rng2 = rng := by
    simpa [Prod.ext_iff] using htup
  subst hg2 hmut hrng
  refine ⟨?_, (stepFinish_record ..).2.2.2, (stepFinish_record ..).2.2.1, ?_⟩
  · rw [(stepFinish_record ..).1, hdec]
  · rw [stepFinish_dW, preState_prev_snap]
    cases hps : st.prev_snap with
    | none =>
      rw [Option.getD_none]
      exact l1diff_snapshot_self _ hnd
    | some snap =>
      rw [Option.getD_some]
      exact hsnap snap hps

/-- Claim C4: for every reachable state of a `LiveImprinter`, the values
`div_score`, `Dw`, `Dpi` and `Dm` in every returned `StepRecord` lie in
`[0, 1]`. -/
theorem C4_record_ranges (cfg : LiveImprinter K) (st : ImprinterState K) (g : LogicGraph K)
    (features rule_acts policy : List (String × K)) (chosen : String) (reward nv : K)
    (rng : Rng K) (out : StepOut K)
    (hreach : Reach cfg st g)
    (himp : imprint cfg st g features rule_acts policy chosen reward nv rng = some out) :
    (0 ≤ out.record.div_score ∧ out.record.div_score ≤ 1) ∧
    (0 ≤ out.record.Dw ∧ out.record.Dw ≤ 1) ∧
    (0 ≤ out.record.Dpi ∧ out.record.Dpi ≤ 1) ∧
    (0 ≤ out.record.Dm ∧ out.record.Dm ≤ 1) := by
  obtain ⟨hWin, hW0, -, -⟩ := reach_inv hreach
  obtain ⟨-, g2, mutated, rng2, -, rfl⟩ := imprint_some_inv himp
  have hwin3 : ∀ x ∈ (finishState
      (divergence_score cfg (stabilityPush st policy chosen) g policy false).st
      g2 policy).mutate_window,
      0 ≤ x ∧ x ≤ 1 := by
    intro x hx
    have hx2 : x ∈ pushB st.mutate_window 0 cfg.mut_window := hx
    rcases pushB_mem hx2 with h | h
    · exact hWin x h
    · subst h
      norm_num
  have hw03 : ∀ p : Snapshot K × K,
      (finishState
        (divergence_score cfg (stabilityPush st policy chosen) g policy false).st
        g2 policy).w0 = some p →
        1/1000000000 ≤ p.2 := by
    intro p hp
    have hp2 : (divergence_score cfg (stabilityPush st policy chosen) g policy
        false).st.w0 = some p := hp
    rw [preState_w0] at hp2
    have hp3 := Option.some.inj hp2
    cases hw0 : st.w0 with
    | none =>
      rw [hw0] at hp3
      rw [← hp3]
      exact le_max_right _ _
    | some p0 =>
      rw [hw0] at hp3
      rw [← hp3]
      exact hW0 p0 hw0
  have hb := divergence_score_bounds cfg _ g2 policy mutated hwin3 hw03
  rw [(stepFinish_record_div ..).1, (stepFinish_record_div ..).2.1,
    (stepFinish_record_div ..).2.2.1, (stepFinish_record_div ..).2.2.2]
  exact hb

/-! ### Witnesses, counterexamples and their concrete evaluations

The core rational operations are sealed irreducible; concrete evaluation by
`decide` needs them transparent within this section. -/

section WitnessEvaluation

attribute [local semireducible] Rat.add Rat.mul Rat.sub Rat.inv

/-- Counterexample to C9 as stated: in the one-rule scenario the policy
value at "LEFT" is `1/(1 + 1e-9)`, which is not `1.0` — the partition-sum
floor `+ 1e-9` keeps every probability strictly below one. -/
theorem C9_counterexample :
    LogicGraph.forward Real.exp (g9 ℝ) []
      = some ⟨[("r", 1/2)], [("LEFT", 1/2)], [("LEFT", 1/(1 + 1/1000000000))], g9fwd ℝ⟩ ∧
    lookupD [("LEFT", (1 : ℝ)/(1 + 1/1000000000))] "LEFT" ≠ 1 := by
  refine ⟨forward_g9, ?_⟩
  have hval : lookupD [("LEFT", (1 : ℝ)/(1 + 1/1000000000))] "LEFT"
      = 1/(1 + 1/1000000000) := by
    simp [lookupD, alookup]
  rw [hval]
  intro h
  rw [div_eq_one_iff_eq (by norm_num)] at h
  norm_num at h

/-- Witness for C2: a concrete step whose pre-update divergence is 0.7
lands in mode "limit" and reports `lr_eff = 0`. -/
theorem C2_governor_case_split_witness :
    imprint wCfgGov wStC2 wGC2 [] [] wPolC2 "L" 1 0 ⟨[], []⟩ = some wOutC2 ∧
    wOutC2.record.mode = "limit" ∧ wOutC2.record.lr_eff = 0 :=
  ⟨by decide, by decide,
   (C2_governor_case_split (K := ℚ)).2 wCfgGov wStC2 wGC2 [] [] wPolC2 "L" 1 0 ⟨[], []⟩ wOutC2
     (by decide) (by decide)⟩

/-- Witness for C7: the two (identical) runs of one concrete step agree,
and the run really performs a step. -/
theorem C7_determinism_witness :
    runSteps (defaultImprinter ℚ) (initState ℚ) wG7 ⟨[], []⟩ [wIn7]
      = runSteps (defaultImprinter ℚ) (initState ℚ) wG7 ⟨[], []⟩ [wIn7] ∧
    (runSteps (defaultImprinter ℚ) (initState ℚ) wG7 ⟨[], []⟩ [wIn7]).1.length = 1 :=
  ⟨C7_determinism _ _ _ _ _ _ _ _ _ _ rfl rfl rfl rfl rfl, by decide⟩

/-- Witness for C8: choosing action "R" against a policy keyed only by "L"
makes `imprint` fail fast. -/
theorem C8_invalid_action_fails_fast_witness :
    alookup [("L", (1 : ℚ))] "R" = none ∧
    imprint (defaultImprinter ℚ) (initState ℚ) wG7 [] [] [("L", 1)] "R" 1 0 ⟨[], []⟩ = none :=
  ⟨by decide,
   (C8_invalid_action_fails_fast (K := ℚ)).1 (defaultImprinter ℚ) (initState ℚ) wG7 [] []
     [("L", 1)] "R" 1 0 ⟨[], []⟩ (by decide)⟩

/-- Counterexample to C5 as stated: on the very first `imprint` call of a
fresh default imprinter on a one-rule graph (output weight 1, bias 0,
activation 1, reward 1) the returned record's `Dw` is `19/2000`, not `0`:
the post-update recomputation measures the drift the step itself caused
(decay and L1 shrinkage moved the output weight to 0.9975 and the bias
nudge moved the bias to 0.007). -/
theorem C5_counterexample :
    imprint (defaultImprinter ℚ) (initState ℚ) wG7 [] [] [("L", 1)] "L" 1 0 ⟨[], []⟩
      = some wOutC5 ∧
    wOutC5.record.Dw = 19/2000 ∧ ((19 : ℚ)/2000) ≠ 0 :=
  ⟨by decide, by decide, by norm_num⟩

/-- Witness for the amended C5: the same concrete first step has
`Dpi = 0` in its returned record. -/
theorem C5_first_record_Dpi_zero_witness :
    imprint (defaultImprinter ℚ) (initState ℚ) wG7 [] [] [("L", 1)] "L" 1 0 ⟨[], []⟩
      = some wOutC5 ∧
    wOutC5.record.Dpi = 0 :=
  ⟨by decide,
   C5_first_record_Dpi_zero (defaultImprinter ℚ) wG7 [] [] [("L", 1)] "L" 1 0 ⟨[], []⟩
     wOutC5 (by decide) (by decide)⟩

/-- Counterexample to C6 as stated: after one `imprint` call the mutation
window holds two entries, not one; and after a two-step run whose second
step mutates (and first does not), the returned `Dm` is `1/4` — the
fraction of ones in the four-entry window — while the fraction of the last
two steps on which a mutation occurred is `1/2`. -/
theorem C6_counterexample :
    imprint (defaultImprinter ℚ) (initState ℚ) wG6 [] [] [("L", 1), ("R", 0)] "L" 0 0 wRng6
      = some wOut6a ∧
    wOut6a.st.mutate_window.length = 2 ∧
    imprint (defaultImprinter ℚ) wOut6a.st wOut6a.graph [] [] [("L", 0), ("R", 1)] "L" 0 0
      wOut6a.rng = some wOut6b ∧
    wOut6a.record.mutated = false ∧ wOut6b.record.mutated = true ∧
    wOut6b.record.Dm = 1/4 ∧ ((1 : ℚ)/4) ≠ 1/2 :=
  ⟨by decide, by decide, by decide, by decide, by decide, by decide, by norm_num⟩

/-- Witness for the amended C6: the first counterexample step instantiates
the double-append description — the window becomes `[0, 0]` and `Dm` is its
fraction of ones. -/
theorem C6_mutation_window_double_append_witness :
    imprint (defaultImprinter ℚ) (initState ℚ) wG6 [] [] [("L", 1), ("R", 0)] "L" 0 0 wRng6
      = some wOut6a ∧
    wOut6a.st.mutate_window
      = pushB (pushB (initState ℚ).mutate_window 0 (defaultImprinter ℚ).mut_window)
          (if wOut6a.record.mutated then 1 else 0) (defaultImprinter ℚ).mut_window ∧
    wOut6a.record.Dm
      = wOut6a.st.mutate_window.sum
        / ((max 1 wOut6a.st.mutate_window.length : ℕ) : ℚ) :=
  ⟨by decide,
   (C6_mutation_window_double_append (defaultImprinter ℚ) (initState ℚ) wG6 [] []
     [("L", 1), ("R", 0)] "L" 0 0 wRng6 wOut6a (by decide)).1,
   (C6_mutation_window_double_append (defaultImprinter ℚ) (initState ℚ) wG6 [] []
     [("L", 1), ("R", 0)] "L" 0 0 wRng6 wOut6a (by decide)).2⟩

/-- Witness for C3: the concrete forward pass yields a policy inside
`(0,1)` summing to `1` within `1e-6`. -/
theorem C3_softmax_policy_witness :
    LogicGraph.forward (fun _ => (1 : ℚ)) wG7 [] = some wOutC3 ∧
    (∀ a ∈ wG7.actions, 0 < lookupD wOutC3.policy a ∧ lookupD wOutC3.policy a < 1) ∧
    |1 - (wOutC3.policy.map (fun p => p.2)).sum| ≤ 1/1000000 :=
  ⟨by decide,
   (C3_softmax_policy (fun _ => (1 : ℚ)) (fun _ => one_pos) rfl wG7 [] wOutC3 (by decide)).1,
   (C3_softmax_policy (fun _ => (1 : ℚ)) (fun _ => one_pos) rfl wG7 [] wOutC3 (by decide)).2⟩

/-- Witness for C10: on a concrete graph and feature mapping, the forward
pass preserves the action list and a second pass returns the same output. -/
theorem C10_forward_is_weight_pure_witness :
    LogicGraph.forward (fun _ => (1 : ℚ)) wG7 [("x", 2)] = some wOutC10 ∧
    wOutC10.graph.actions = wG7.actions ∧
    LogicGraph.forward (fun _ => (1 : ℚ)) wOutC10.graph [("x", 2)] = some wOutC10 :=
  ⟨by decide,
   (C10_forward_is_weight_pure (fun _ => (1 : ℚ)) wG7 [("x", 2)] wOutC10 (by decide)).1.1,
   (C10_forward_is_weight_pure (fun _ => (1 : ℚ)) wG7 [("x", 2)] wOutC10 (by decide)).2.1⟩

/-- Witness for C1: a concrete two-step run reaches pre-update divergence
0.9; the second step quarantines, changes no weight and reports
`dW_step = 0`. -/
theorem C1_quarantine_freezes_witness :
    imprint wCfgGov (initState ℚ) wG1 [] [] [("L", 1), ("R", 0)] "L" 1 0 ⟨[], []⟩
      = some wOut1a ∧
    (defaultGovernor ℚ).quarantine_thresh
      ≤ preDivScore wCfgGov wOut1a.st wOut1a.graph [("L", 0), ("R", 1)] "L" ∧
    imprint wCfgGov wOut1a.st wOut1a.graph [] [] [("L", 0), ("R", 1)] "L" 1 0 ⟨[], []⟩
      = some wOut1b ∧
    wOut1b.record.mode = "quarantine" ∧ wOut1b.graph = wOut1a.graph ∧
    wOut1b.record.mutated = false ∧ wOut1b.record.dW_step = 0 := by
  have h1 : imprint wCfgGov (initState ℚ) wG1 [] [] [("L", 1), ("R", 0)] "L" 1 0 ⟨[], []⟩
      = some wOut1a := by decide
  refine ⟨h1, by decide, by decide, ?_⟩
  exact C1_quarantine_freezes wCfgGov (defaultGovernor ℚ) wOut1a.st wOut1a.graph [] []
    [("L", 0), ("R", 1)] "L" 1 0 ⟨[], []⟩ wOut1b
    (Reach.imprint_step (Reach.init wG1 (by decide)) h1)
    (by decide) (by decide) (by decide)

/-- Witness for C4: the first-step record of the `wG7` run has all four
divergence components inside `[0, 1]`. -/
theorem C4_record_ranges_witness :
    imprint (defaultImprinter ℚ) (initState ℚ) wG7 [] [] [("L", 1)] "L" 1 0 ⟨[], []⟩
      = some wOutC5 ∧
    ((0 ≤ wOutC5.record.div_score ∧ wOutC5.record.div_score ≤ 1) ∧
     (0 ≤ wOutC5.record.Dw ∧ wOutC5.record.Dw ≤ 1) ∧
     (0 ≤ wOutC5.record.Dpi ∧ wOutC5.record.Dpi ≤ 1) ∧
     (0 ≤ wOutC5.record.Dm ∧ wOutC5.record.Dm ≤ 1)) :=
  ⟨by decide,
   C4_record_ranges (defaultImprinter ℚ) (initState ℚ) wG7 [] [] [("L", 1)] "L" 1 0
     ⟨[], []⟩ wOutC5 (Reach.init wG7 (by decide)) (by decide)⟩

end WitnessEvaluation

end Ethos
